import Mathlib

/-!
Shallow embedding of the statement-parsing and reconciliation engine of the
financas repository: the BB credit-card header extractor
(cartao_credito/parsers/bb/dados_fatura.py), the line-block parser and
dedup/hash engine (cartao_credito/parsers/bb/lancamentos.py), the installment
grouping engine (cartao_credito/services/parcelados.py) and the currency
formatter (core/templatetags/formatadores.py), together with proofs of the
claims about them.

Python primitives (str methods, re patterns, datetime.date, decimal.Decimal,
hashlib.sha1, unidecode) are modelled explicitly below.  Each regular
expression of the source is implemented as a dedicated matcher with Python
semantics (leftmost match, greedy/lazy repetition, word boundaries).
-/

namespace Financas

/-! ### Python character and string primitives -/

/-- Python whitespace for the str.strip / re \s class, restricted to the
ASCII + Latin-1 whitespace characters that can occur in statement text. -/
def pyIsSpace (c : Char) : Bool :=
  c = ' ' || c = '\t' || c = '\n' || c = '\x0b' || c = '\x0c' || c = '\r' ||
    c = ' '

def pyIsDigit (c : Char) : Bool :=
  '0' ≤ c && c ≤ '9'

def isAsciiUpperAlpha (c : Char) : Bool :=
  'A' ≤ c && c ≤ 'Z'

def isAsciiLowerAlpha (c : Char) : Bool :=
  'a' ≤ c && c ≤ 'z'

/-- Latin-1 letters (the accented letters that occur in Brazilian statement
text); the two ranges exclude the multiplication and division signs. -/
def isLatin1Letter (c : Char) : Bool :=
  (0xC0 ≤ c.val && c.val ≤ 0xFF && c.val ≠ 0xD7 && c.val ≠ 0xF7)

/-- Python re word character (\w, hence also \b) for the character set
relevant to this codebase: ASCII alphanumerics, underscore and Latin-1
letters. -/
def isWordChar (c : Char) : Bool :=
  isAsciiUpperAlpha c || isAsciiLowerAlpha c || pyIsDigit c || c = '_' ||
    isLatin1Letter c

/-- ASCII-only uppercase used for case-insensitive regex comparison of
ASCII pattern letters. -/
def asciiUpper (c : Char) : Char :=
  if isAsciiLowerAlpha c then Char.ofNat (c.val.toNat - 32) else c

/-- Case-insensitive comparison of an input character against an ASCII
pattern character (Python re.IGNORECASE on ASCII pattern letters). -/
def ciEq (c pat : Char) : Bool :=
  asciiUpper c = asciiUpper pat

/-- Python str.upper restricted to ASCII and Latin-1 letters. -/
def pyUpperChar (c : Char) : Char :=
  if isAsciiLowerAlpha c then Char.ofNat (c.val.toNat - 32)
  else if 0xE0 ≤ c.val && c.val ≤ 0xFE && c.val ≠ 0xF7 then
    Char.ofNat (c.val.toNat - 32)
  else if c.val = 0xFF then Char.ofNat 0x178
  else c

/-- Python str.lower restricted to ASCII and Latin-1 letters. -/
def pyLowerChar (c : Char) : Char :=
  if isAsciiUpperAlpha c then Char.ofNat (c.val.toNat + 32)
  else if 0xC0 ≤ c.val && c.val ≤ 0xDE && c.val ≠ 0xD7 then
    Char.ofNat (c.val.toNat + 32)
  else c

/-- The unidecode transliteration for the characters occurring in this
domain: ASCII is kept, Latin-1 letters lose their diacritic; any other
non-ASCII character is dropped (the unidecode default for unmapped code
points). -/
def unidecodeChar (c : Char) : List Char :=
  if c.val ≤ 0x7F then [c]
  else
    let n := c.val.toNat
    let base : Option Char :=
      if n ∈ [0xC0, 0xC1, 0xC2, 0xC3, 0xC4, 0xC5] then some 'A'
      else if n = 0xC7 then some 'C'
      else if n ∈ [0xC8, 0xC9, 0xCA, 0xCB] then some 'E'
      else if n ∈ [0xCC, 0xCD, 0xCE, 0xCF] then some 'I'
      else if n = 0xD1 then some 'N'
      else if n ∈ [0xD2, 0xD3, 0xD4, 0xD5, 0xD6, 0xD8] then some 'O'
      else if n ∈ [0xD9, 0xDA, 0xDB, 0xDC] then some 'U'
      else if n = 0xDD then some 'Y'
      else if n ∈ [0xE0, 0xE1, 0xE2, 0xE3, 0xE4, 0xE5] then some 'a'
      else if n = 0xE7 then some 'c'
      else if n ∈ [0xE8, 0xE9, 0xEA, 0xEB] then some 'e'
      else if n ∈ [0xEC, 0xED, 0xEE, 0xEF] then some 'i'
      else if n = 0xF1 then some 'n'
      else if n ∈ [0xF2, 0xF3, 0xF4, 0xF5, 0xF6, 0xF8] then some 'o'
      else if n ∈ [0xF9, 0xFA, 0xFB, 0xFC] then some 'u'
      else if n ∈ [0xFD, 0xFF] then some 'y'
      else none
    match base with
    | some b => [b]
    | none => []

def pyStripChars (cs : List Char) : List Char :=
  (cs.dropWhile pyIsSpace).reverse.dropWhile pyIsSpace |>.reverse

def pyStrip (s : String) : String :=
  ⟨pyStripChars s.data⟩

/-- Python str.splitlines for the line terminators occurring in extracted
statement text (newline, carriage return, CR LF, vertical tab, form feed). -/
def pySplitlinesChars : List Char → List Char → List (List Char)
  | [], acc => if acc.isEmpty then [] else [acc.reverse]
  | '\r' :: '\n' :: rest, acc => acc.reverse :: pySplitlinesChars rest []
  | '\r' :: rest, acc => acc.reverse :: pySplitlinesChars rest []
  | '\n' :: rest, acc => acc.reverse :: pySplitlinesChars rest []
  | '\x0b' :: rest, acc => acc.reverse :: pySplitlinesChars rest []
  | '\x0c' :: rest, acc => acc.reverse :: pySplitlinesChars rest []
  | c :: rest, acc => pySplitlinesChars rest (c :: acc)

def pySplitlines (s : String) : List String :=
  (pySplitlinesChars s.data []).map fun cs => ⟨cs⟩

/-- Python str.split with no argument: split on whitespace runs, dropping
empty fields (accumulator carries the current token reversed). -/
def pySplitWsAux : List Char → List Char → List (List Char)
  | [], acc => if acc.isEmpty then [] else [acc.reverse]
  | c :: rest, acc =>
    if pyIsSpace c then
      if acc.isEmpty then pySplitWsAux rest []
      else acc.reverse :: pySplitWsAux rest []
    else pySplitWsAux rest (c :: acc)

def pySplitWsChars (cs : List Char) : List (List Char) :=
  pySplitWsAux cs []

/-- re.sub of one-or-more whitespace by a single space, as used to collapse
whitespace runs in descriptions and normalized text; the flag records
whether the current position is inside a whitespace run. -/
def squeezeWsAux : List Char → Bool → List Char
  | [], _ => []
  | c :: rest, inRun =>
    if pyIsSpace c then
      if inRun then squeezeWsAux rest true else ' ' :: squeezeWsAux rest true
    else c :: squeezeWsAux rest false

def squeezeWsChars (cs : List Char) : List Char :=
  squeezeWsAux cs false

def squeezeWs (s : String) : String :=
  ⟨squeezeWsChars s.data⟩

/-! ### datetime.date -/

/-- Python datetime.date; the constructor validates, so a value of this type
is always a valid proleptic-Gregorian date with year in 1..9999 (validity is
enforced by mkDate below, mirroring the raising constructor). -/
structure Date where
  year : Nat
  month : Nat
  day : Nat
deriving DecidableEq, Repr

def isLeapYear (y : Nat) : Bool :=
  y % 4 = 0 && (y % 100 ≠ 0 || y % 400 = 0)

def daysInMonth (y m : Nat) : Nat :=
  if m = 2 then (if isLeapYear y then 29 else 28)
  else if m ∈ [4, 6, 9, 11] then 30
  else 31

/-- datetime.date(y, m, d): returns none exactly when Python raises
ValueError. -/
def mkDate (y : Int) (m d : Nat) : Option Date :=
  if 1 ≤ y ∧ y ≤ 9999 ∧ 1 ≤ m ∧ m ≤ 12 ∧ 1 ≤ d ∧ d ≤ daysInMonth y.toNat m
  then some ⟨y.toNat, m, d⟩ else none

/-- Days before the first day of month m (1-based) in a non-leap year. -/
def daysBeforeMonth (m : Nat) : Nat :=
  [0, 0, 31, 59, 90, 120, 151, 181, 212, 243, 273, 304, 334].getD m 0

/-- Python date.toordinal: day number in the proleptic Gregorian calendar
with 0001-01-01 as day 1. -/
def Date.toordinal (dt : Date) : Nat :=
  let y := dt.year - 1
  365 * y + y / 4 - y / 100 + y / 400 +
    daysBeforeMonth dt.month +
    (if dt.month > 2 && isLeapYear dt.year then 1 else 0) + dt.day

/-- Python date subtraction, in days. -/
def dateDiffDays (a b : Date) : Int :=
  (a.toordinal : Int) - (b.toordinal : Int)

/-- Python date comparison (lexicographic on year, month, day, which agrees
with the ordinal order for valid dates). -/
def Date.ltb (a b : Date) : Bool :=
  a.year < b.year ||
    (a.year = b.year && (a.month < b.month ||
      (a.month = b.month && a.day < b.day)))

def Date.leb (a b : Date) : Bool :=
  a.ltb b || a = b

def padNum (width : Nat) (n : Nat) : String :=
  let s := toString n
  ⟨List.replicate (width - s.length) '0'⟩ ++ s

/-- Python date.isoformat: YYYY-MM-DD. -/
def Date.isoformat (dt : Date) : String :=
  padNum 4 dt.year ++ "-" ++ padNum 2 dt.month ++ "-" ++ padNum 2 dt.day

/-- date.replace(day=1), as used for the billing-cycle key. -/
def competencia_from_fechamento (dt : Date) : Date :=
  { dt with day := 1 }

/-! ### decimal.Decimal -/

/-- Python decimal.Decimal restricted to the fixed-point values this codebase
produces: the value is mant / 10 ^ exp.  Arithmetic on such values is exact
in Python for fewer than 28 significant digits, which covers every value a
statement can carry; the operations below are exact. -/
structure Dec where
  mant : Int
  exp : Nat
deriving DecidableEq, Repr

def decPow10 (n : Nat) : Int := (10 : Int) ^ n

/-- Decimal(s) on a string of form sign? digits* (. digits*)?, none exactly
when the Decimal constructor raises (no digit at all, stray characters,
several dots): the grammar the call sites can produce after the Brazilian
separator rewriting. -/
def pyDecimalOfChars (cs : List Char) : Option Dec :=
  let sign : Int := if cs.head? = some '-' then -1 else 1
  let rest : List Char :=
    if cs.head? = some '+' ∨ cs.head? = some '-' then cs.tail else cs
  let intPart := rest.takeWhile pyIsDigit
  let rest2 := rest.drop intPart.length
  match rest2 with
  | [] =>
    if intPart.isEmpty then none
    else some ⟨sign * (intPart.foldl (fun a c => 10 * a + (c.val.toNat - 48)) 0 : Nat), 0⟩
  | '.' :: fracAndTail =>
    let fracPart := fracAndTail.takeWhile pyIsDigit
    if fracAndTail.drop fracPart.length ≠ [] then none
    else if intPart.isEmpty ∧ fracPart.isEmpty then none
    else
      some ⟨sign * ((intPart ++ fracPart).foldl
        (fun a c => 10 * a + (c.val.toNat - 48)) 0 : Nat), fracPart.length⟩
  | _ => none

def pyDecimal (s : String) : Option Dec :=
  pyDecimalOfChars s.data

/-- Round num / den (den > 0) to the nearest integer, ties to even
(the default decimal context rounding used by to_integral_value). -/
def roundHalfEven (num : Int) (den : Int) : Int :=
  let q := Int.fdiv num den
  let r := Int.fmod num den
  if 2 * r < den then q
  else if 2 * r > den then q + 1
  else if q % 2 = 0 then q else q + 1

/-- Round num / den (den > 0) to the nearest integer, ties away from zero
(decimal ROUND_HALF_UP). -/
def roundHalfUpAway (num : Int) (den : Int) : Int :=
  if num ≥ 0 then (2 * num + den) / (2 * den)
  else -((2 * (-num) + den) / (2 * den))

/-- int((valor * 100).to_integral_value()): the amount in minor units. -/
def valorCent (d : Dec) : Int :=
  roundHalfEven (100 * d.mant) (decPow10 d.exp)

/-- Decimal(v or 0).quantize(Decimal("0.01"), rounding=ROUND_HALF_UP),
the helper _q2 of the installment engine. -/
def q2 (d : Dec) : Dec :=
  ⟨roundHalfUpAway (100 * d.mant) (decPow10 d.exp), 2⟩

def Dec.ltZero (d : Dec) : Bool := d.mant < 0

def Dec.sub (a b : Dec) : Dec :=
  let e := max a.exp b.exp
  ⟨a.mant * decPow10 (e - a.exp) - b.mant * decPow10 (e - b.exp), e⟩

def Dec.absD (a : Dec) : Dec := ⟨|a.mant|, a.exp⟩

def Dec.leb (a b : Dec) : Bool :=
  a.mant * decPow10 b.exp ≤ b.mant * decPow10 a.exp

def Dec.add (a b : Dec) : Dec :=
  let e := max a.exp b.exp
  ⟨a.mant * decPow10 (e - a.exp) + b.mant * decPow10 (e - b.exp), e⟩

/-- Render a Dec with exp = 2 in the fixed "d.dd" form used when the source
interpolates a two-decimal Decimal into a string (f-string :.2f on cents). -/
def centsToString (cents : Int) : String :=
  let sgn := if cents < 0 then "-" else ""
  let n := cents.natAbs
  sgn ++ toString (n / 100) ++ "." ++ padNum 2 (n % 100)

/-! ### hashlib.sha1 -/

/-- UTF-8 encoding of one unicode scalar value, as a list of byte values. -/
def utf8Char (c : Char) : List Nat :=
  let n := c.val.toNat
  if n < 0x80 then [n]
  else if n < 0x800 then [0xC0 + n / 64, 0x80 + n % 64]
  else if n < 0x10000 then
    [0xE0 + n / 4096, 0x80 + (n / 64) % 64, 0x80 + n % 64]
  else
    [0xF0 + n / 262144, 0x80 + (n / 4096) % 64, 0x80 + (n / 64) % 64,
      0x80 + n % 64]

def utf8Bytes (s : String) : List Nat :=
  s.data.flatMap utf8Char

def m32 : Nat := 4294967296

def rotl (n x : Nat) : Nat :=
  ((x * 2 ^ n) % m32) ||| (x / 2 ^ (32 - n))

def w32not (x : Nat) : Nat := Nat.xor x (m32 - 1)

/-- Split a padded message into the 16 big-endian 32-bit words of each
64-byte block. -/
def bytesToWords : List Nat → List Nat
  | b0 :: b1 :: b2 :: b3 :: rest =>
    (((b0 * 256 + b1) * 256 + b2) * 256 + b3) :: bytesToWords rest
  | _ => []

def sha1Pad (msg : List Nat) : List Nat :=
  let len := msg.length
  let zeros := (64 - (len + 9) % 64) % 64
  let bitLen := 8 * len
  msg ++ [0x80] ++ List.replicate zeros 0 ++
    [bitLen / 2 ^ 56 % 256, bitLen / 2 ^ 48 % 256, bitLen / 2 ^ 40 % 256,
     bitLen / 2 ^ 32 % 256, bitLen / 2 ^ 24 % 256, bitLen / 2 ^ 16 % 256,
     bitLen / 2 ^ 8 % 256, bitLen % 256]

/-- Message-schedule expansion from 16 to 80 words. -/
def sha1Expand (ws : List Nat) (i : Nat) : List Nat :=
  match i with
  | 0 => ws
  | i + 1 =>
    let ws := sha1Expand ws i
    ws ++ [rotl 1 (Nat.xor (Nat.xor (ws.getD (ws.length - 3) 0)
      (ws.getD (ws.length - 8) 0))
      (Nat.xor (ws.getD (ws.length - 14) 0) (ws.getD (ws.length - 16) 0)))]

def sha1F (t b c d : Nat) : Nat :=
  if t < 20 then Nat.lor (Nat.land b c) (Nat.land (w32not b) d)
  else if t < 40 then Nat.xor (Nat.xor b c) d
  else if t < 60 then
    Nat.lor (Nat.lor (Nat.land b c) (Nat.land b d)) (Nat.land c d)
  else Nat.xor (Nat.xor b c) d

def sha1K (t : Nat) : Nat :=
  if t < 20 then 0x5A827999
  else if t < 40 then 0x6ED9EBA1
  else if t < 60 then 0x8F1BBCDC
  else 0xCA62C1D6

def sha1Rounds : Nat → List Nat → Nat × Nat × Nat × Nat × Nat →
    Nat × Nat × Nat × Nat × Nat
  | _, [], st => st
  | t, w :: ws, (a, b, c, d, e) =>
    let tmp := (rotl 5 a + sha1F t b c d + e + sha1K t + w) % m32
    sha1Rounds (t + 1) ws (tmp, a, rotl 30 b, c, d)

/-- Chunk the word stream of a padded message into 16-word blocks. -/
def chunk16 : List Nat → List (List Nat)
  | w0 :: w1 :: w2 :: w3 :: w4 :: w5 :: w6 :: w7 :: w8 :: w9 :: w10 ::
      w11 :: w12 :: w13 :: w14 :: w15 :: rest =>
    [w0, w1, w2, w3, w4, w5, w6, w7, w8, w9, w10, w11, w12, w13, w14, w15] ::
      chunk16 rest
  | _ => []

def sha1Blocks : List (List Nat) → Nat × Nat × Nat × Nat × Nat →
    Nat × Nat × Nat × Nat × Nat
  | [], st => st
  | block :: rest, (h0, h1, h2, h3, h4) =>
    let ws := sha1Expand block 64
    let (a, b, c, d, e) := sha1Rounds 0 ws (h0, h1, h2, h3, h4)
    sha1Blocks rest
      ((h0 + a) % m32, (h1 + b) % m32, (h2 + c) % m32, (h3 + d) % m32,
        (h4 + e) % m32)

def hexDigit (n : Nat) : Char :=
  if n < 10 then Char.ofNat (48 + n) else Char.ofNat (87 + n)

def toHex32 (x : Nat) : String :=
  ⟨[hexDigit (x / 2 ^ 28 % 16), hexDigit (x / 2 ^ 24 % 16),
    hexDigit (x / 2 ^ 20 % 16), hexDigit (x / 2 ^ 16 % 16),
    hexDigit (x / 2 ^ 12 % 16), hexDigit (x / 2 ^ 8 % 16),
    hexDigit (x / 2 ^ 4 % 16), hexDigit (x % 16)]⟩

/-- hashlib.sha1(s.encode("utf-8")).hexdigest(). -/
def sha1 (s : String) : String :=
  let (h0, h1, h2, h3, h4) :=
    sha1Blocks (chunk16 (bytesToWords (sha1Pad (utf8Bytes s))))
      (0x67452301, 0xEFCDAB89, 0x98BADCFE, 0x10325476, 0xC3D2E1F0)
  toHex32 h0 ++ toHex32 h1 ++ toHex32 h2 ++ toHex32 h3 ++ toHex32 h4

/-! ### Regex building blocks

Python re semantics are modelled per pattern: search scans start positions
left to right, repetition is greedy (or lazy where the pattern says so) with
backtracking, and word boundaries test the surrounding characters. -/

/-- A token of a sequential pattern: a one-character class, mandatory
whitespace (\s+) or optional whitespace (\s*).  In every pattern below a
whitespace token is followed by a class that rejects whitespace, so greedy
whitespace consumption never needs backtracking. -/
inductive RTok
  | cls (p : Char → Bool)
  | wsP
  | wsS

def matchToks : List RTok → List Char → Option (List Char)
  | [], cs => some cs
  | .cls p :: ts, c :: cs => if p c then matchToks ts cs else none
  | .cls _ :: _, [] => none
  | .wsP :: ts, c :: cs =>
    if pyIsSpace c then matchToks ts (cs.dropWhile pyIsSpace) else none
  | .wsP :: _, [] => none
  | .wsS :: ts, cs => matchToks ts (cs.dropWhile pyIsSpace)

/-- Case-insensitive literal word as a token list. -/
def ciWordToks (s : String) : List RTok :=
  s.data.map fun pc => .cls fun c => ciEq c pc

/-- Case-sensitive literal word as a token list. -/
def csWordToks (s : String) : List RTok :=
  s.data.map fun pc => .cls fun c => c = pc

/-- The character class [ÇC] under re.IGNORECASE. -/
def cedilhaToks : List RTok :=
  [.cls fun c => c = 'Ç' || c = 'ç' || ciEq c 'C']

def searchToks (ts : List RTok) : List Char → Bool
  | [] => (matchToks ts []).isSome
  | c :: cs => (matchToks ts (c :: cs)).isSome || searchToks ts cs

/-- Word boundary on the left of a word character: the previous character,
if any, is not a word character. -/
def boundaryL (prev : Option Char) : Bool :=
  match prev with
  | none => true
  | some c => !isWordChar c

/-- Word boundary on the right of a word character: the next character,
if any, is not a word character. -/
def boundaryR (rest : List Char) : Bool :=
  match rest with
  | [] => true
  | c :: _ => !isWordChar c

/-! ### Patterns of cartao_credito/parsers/bb/lancamentos.py -/

/-- RE_DATA_CURTA.match: two digits, slash, two digits at line start with a
trailing word boundary; yields (dia, mes). -/
def reDataCurtaMatch : List Char → Option (Nat × Nat)
  | d1 :: d2 :: '/' :: d3 :: d4 :: rest =>
    if pyIsDigit d1 && pyIsDigit d2 && pyIsDigit d3 && pyIsDigit d4 &&
        boundaryR rest then
      some (10 * (d1.val.toNat - 48) + (d2.val.toNat - 48),
        10 * (d3.val.toNat - 48) + (d4.val.toNat - 48))
    else none
  | _ => none

def isValorChar (c : Char) : Bool :=
  pyIsDigit c || c = '.' || c = ','

/-- The tail of RE_VALOR_FINAL after the literal R$: whitespace, optional
sign, whitespace, a nonempty run of digits/dots/commas, then only
whitespace up to the end; returns the valor group (sign, inner whitespace
and run, exactly the characters the group captures). -/
def valorFinalTail (cs : List Char) : Option (List Char) :=
  let a := cs.dropWhile pyIsSpace
  let (sign, b) :=
    match a with
    | '+' :: r => (['+'], r)
    | '-' :: r => (['-'], r)
    | _ => (([] : List Char), a)
  let inner := b.takeWhile pyIsSpace
  let c := b.dropWhile pyIsSpace
  let run := c.takeWhile isValorChar
  if run.isEmpty then none
  else if (c.dropWhile isValorChar).all pyIsSpace then
    some (sign ++ inner ++ run)
  else none

/-- RE_VALOR_FINAL.search: leftmost R$ whose tail matches to end of line. -/
def valorFinalSearch : List Char → Option (List Char)
  | [] => none
  | 'R' :: '$' :: rest =>
    match valorFinalTail rest with
    | some g => some g
    | none => valorFinalSearch ('$' :: rest)
  | _ :: rest => valorFinalSearch rest

/-- RE_SKIP_VALUE_LINE.search: PGTO DEBITO, SUBTOTAL or TOTAL DA FATURA
anywhere, case-insensitively. -/
def skipValueLineTest (cs : List Char) : Bool :=
  searchToks (ciWordToks "PGTO" ++ [.wsP] ++ ciWordToks "DEBITO") cs ||
  searchToks (ciWordToks "SUBTOTAL") cs ||
  searchToks (ciWordToks "TOTAL" ++ [.wsP] ++ ciWordToks "DA" ++ [.wsP] ++
    ciWordToks "FATURA") cs

/-- RE_ANCHOR_LANCAMENTOS.search on one line. -/
def anchorLancTest (cs : List Char) : Bool :=
  searchToks (ciWordToks "LAN" ++ cedilhaToks ++ ciWordToks "AMENTOS" ++
    [.wsP] ++ ciWordToks "NESTA" ++ [.wsP] ++ ciWordToks "FATURA") cs

/-- Leftmost case-insensitive word with boundaries on both sides; returns
the input remaining after the word. -/
def findWordCI (word : String) (prev : Option Char) (cs : List Char) :
    Option (List Char) :=
  let here : Option (List Char) :=
    if boundaryL prev then
      match matchToks (ciWordToks word) cs with
      | some rest => if boundaryR rest then some rest else none
      | none => none
    else none
  match here with
  | some r => some r
  | none =>
    match cs with
    | [] => none
    | c :: r => findWordCI word (some c) r

/-- RE_PGTO_DEBITO.search: word PGTO somewhere, word DEBITO somewhere after
it. -/
def pgtoDebitoTest (cs : List Char) : Bool :=
  match findWordCI "PGTO" none cs with
  | some rest => (findWordCI "DEBITO" (some 'O') rest).isSome
  | none => false

/-- The mandatory numeric part of RE_MOEDA_FIM after the currency marker
and sign: 1-3 digits, any number of dot-plus-three-digit groups, a final
dot-or-comma plus two digits, then only whitespace.  starNum tries the
greedy continuation first and backtracks to the final group. -/
def moedaFimFinal : List Char → Bool
  | p :: d1 :: d2 :: rest =>
    (p = '.' || p = ',') && pyIsDigit d1 && pyIsDigit d2 &&
      rest.all pyIsSpace
  | _ => false

def moedaFimStar (cs : List Char) : Bool :=
  (match cs with
    | '.' :: d1 :: d2 :: d3 :: rest =>
      if pyIsDigit d1 && pyIsDigit d2 && pyIsDigit d3 then moedaFimStar rest
      else false
    | _ => false) ||
  moedaFimFinal cs

def moedaFimNum (cs : List Char) : Bool :=
  match cs with
  | d1 :: d2 :: d3 :: rest =>
    (pyIsDigit d1 && pyIsDigit d2 && pyIsDigit d3 && moedaFimStar rest) ||
    (pyIsDigit d1 && pyIsDigit d2 && moedaFimStar (d3 :: rest)) ||
    (pyIsDigit d1 && moedaFimStar (d2 :: d3 :: rest))
  | d1 :: d2 :: rest =>
    (pyIsDigit d1 && pyIsDigit d2 && moedaFimStar rest) ||
    (pyIsDigit d1 && moedaFimStar (d2 :: rest))
  | d1 :: rest => pyIsDigit d1 && moedaFimStar rest
  | [] => false

/-- Whether a whole suffix matches RE_MOEDA_FIM (whitespace, currency
marker, whitespace, optional sign, whitespace, grouped amount, trailing
whitespace). -/
def moedaFimHere (cs : List Char) : Bool :=
  let a := cs.dropWhile pyIsSpace
  let afterCur : Option (List Char) :=
    match a with
    | 'R' :: '$' :: r => some r
    | 'U' :: 'S' :: '$' :: r => some r
    | 'U' :: 'S' :: 'D' :: r => some r
    | '$' :: r => some r
    | _ => none
  match afterCur with
  | none => false
  | some r =>
    let b := r.dropWhile pyIsSpace
    let c := match b with
      | '+' :: t => t
      | '-' :: t => t
      | _ => b
    moedaFimNum (c.dropWhile pyIsSpace)

/-- RE_MOEDA_FIM.sub("", txt): the pattern is anchored at the end, so at
most the leftmost matching suffix is removed. -/
def moedaFimSub : List Char → List Char
  | [] => []
  | c :: rest =>
    if moedaFimHere (c :: rest) then []
    else c :: moedaFimSub rest

/-- The continuation of RE_PAIS_PRE_VALOR after the country group:
whitespace, currency marker, whitespace, optional sign, whitespace and one
digit. -/
def paisPreTail (cs : List Char) : Bool :=
  match cs with
  | c :: r =>
    if pyIsSpace c then
      let a := r.dropWhile pyIsSpace
      let afterCur : Option (List Char) :=
        match a with
        | 'R' :: '$' :: t => some t
        | 'U' :: 'S' :: '$' :: t => some t
        | 'U' :: 'S' :: 'D' :: t => some t
        | '$' :: t => some t
        | _ => none
      match afterCur with
      | none => false
      | some t =>
        let b := t.dropWhile pyIsSpace
        let c2 := match b with
          | '+' :: u => u
          | '-' :: u => u
          | _ => b
        match c2.dropWhile pyIsSpace with
        | d :: _ => pyIsDigit d
        | [] => false
    else false
  | [] => false

/-- RE_PAIS_PRE_VALOR.search with the group span removed, as done in
_limpar_primeira_linha_sem_data: whitespace, two or three capital letters
(greedy), then whitespace and a currency amount; only the letters are cut
out.  acc holds the already-scanned prefix reversed. -/
def paisPreFind (acc : List Char) : List Char → Option (List Char × List Char)
  | [] => none
  | c :: rest =>
    let here : Option (List Char × List Char) :=
      if pyIsSpace c then
        let w := (c :: rest).takeWhile pyIsSpace
        let after := (c :: rest).dropWhile pyIsSpace
        let try3 :=
          match after with
          | l1 :: l2 :: l3 :: r3 =>
            if isAsciiUpperAlpha l1 && isAsciiUpperAlpha l2 &&
                isAsciiUpperAlpha l3 && paisPreTail r3 then
              some ([l1, l2, l3], acc.reverse ++ w ++ r3)
            else none
          | _ => none
        match try3 with
        | some res => some res
        | none =>
          match after with
          | l1 :: l2 :: r2 =>
            if isAsciiUpperAlpha l1 && isAsciiUpperAlpha l2 &&
                paisPreTail r2 then
              some ([l1, l2], acc.reverse ++ w ++ r2)
            else none
          | _ => none
      else none
    match here with
    | some res => some res
    | none => paisPreFind (c :: acc) rest

/-- RE_PAIS_FIM.search and sub: whitespace, then two or three capital
letters followed only by whitespace; returns the letters and the text
before the match. -/
def paisFimFind (acc : List Char) : List Char → Option (List Char × List Char)
  | [] => none
  | c :: rest =>
    let here : Option (List Char × List Char) :=
      if pyIsSpace c then
        let after := (c :: rest).dropWhile pyIsSpace
        let try3 :=
          match after with
          | l1 :: l2 :: l3 :: r3 =>
            if isAsciiUpperAlpha l1 && isAsciiUpperAlpha l2 &&
                isAsciiUpperAlpha l3 && r3.all pyIsSpace then
              some ([l1, l2, l3], acc.reverse)
            else none
          | _ => none
        match try3 with
        | some res => some res
        | none =>
          match after with
          | l1 :: l2 :: r2 =>
            if isAsciiUpperAlpha l1 && isAsciiUpperAlpha l2 &&
                r2.all pyIsSpace then
              some ([l1, l2], acc.reverse)
            else none
          | _ => none
      else none
    match here with
    | some res => some res
    | none => paisFimFind (c :: acc) rest

/-- re.sub of two-or-more whitespace by one space (single whitespace
characters are kept as they are); run carries the pending whitespace run
reversed. -/
def squeeze2Aux : List Char → List Char → List Char
  | [], run => if run.length ≥ 2 then [' '] else run.reverse
  | c :: rest, run =>
    if pyIsSpace c then squeeze2Aux rest (c :: run)
    else (if run.length ≥ 2 then [' '] else run.reverse) ++
      c :: squeeze2Aux rest []

def squeeze2Ws (cs : List Char) : List Char :=
  squeeze2Aux cs []

/-- _limpar_primeira_linha_sem_data: removes a trailing currency amount and
captures a country code only when it sits immediately before the amount or
at the end of the line. -/
def limpar_primeira_linha_sem_data (s : String) : String × Option String :=
  if s.isEmpty then ("", none)
  else
    let txt0 := pyStripChars s.data
    let (txt1, pais1) :=
      match paisPreFind [] txt0 with
      | some (p, t) => (pyStripChars t, some p)
      | none => (txt0, none)
    let txt2 := pyStripChars (moedaFimSub txt1)
    let (txt3, pais3) :=
      match pais1 with
      | some p => (txt2, some p)
      | none =>
        match paisFimFind [] txt2 with
        | some (p, t) => (pyStripChars t, some p)
        | none => (txt2, none)
    (⟨pyStripChars (squeeze2Ws txt3)⟩, pais3.map fun p => ⟨p⟩)

/-- One alternative of RE_SECAO: a token prefix, an optional token suffix
(tried greedily), then a word boundary. -/
def secaoAlt (pre suf : List RTok) (cs : List Char) : Bool :=
  match matchToks pre cs with
  | none => false
  | some rest =>
    (match matchToks suf rest with
      | some rest2 => boundaryR rest2
      | none => false) ||
    boundaryR rest

/-- RE_SECAO.search: the pattern is anchored at line start. -/
def secaoTest (cs : List Char) : Bool :=
  secaoAlt (ciWordToks "COMPRAS" ++ [.wsP] ++ ciWordToks "NAC")
    (ciWordToks "IONAIS") cs ||
  secaoAlt (ciWordToks "COMPRAS" ++ [.wsP] ++ ciWordToks "INT")
    (ciWordToks "ERNACIONAIS") cs ||
  secaoAlt (ciWordToks "LAN" ++ cedilhaToks ++ ciWordToks "AMENTOS" ++
    [.wsP] ++ ciWordToks "DIVERSOS") [] cs ||
  secaoAlt (ciWordToks "ASSINATURAS")
    ([.wsP] ++ ciWordToks "E" ++ [.wsP] ++ ciWordToks "SERVI" ++
      cedilhaToks ++ ciWordToks "OS") cs ||
  secaoAlt (ciWordToks "PARCELADO") (ciWordToks "S") cs ||
  secaoAlt (ciWordToks "TARIFA") (ciWordToks "S") cs ||
  secaoAlt (ciWordToks "SEGURO") (ciWordToks "S") cs ||
  secaoAlt (ciWordToks "ESTORNO") (ciWordToks "S") cs ||
  secaoAlt (ciWordToks "OUTROS" ++ [.wsP] ++ ciWordToks "LAN" ++
    cedilhaToks ++ ciWordToks "AMENTO") (ciWordToks "S") cs ||
  secaoAlt (ciWordToks "SERVI" ++ cedilhaToks ++ ciWordToks "OS") [] cs

/-- unidecode of a whole character list. -/
def unidecodeChars (cs : List Char) : List Char :=
  cs.flatMap unidecodeChar

/-- The norm helper of lancamentos.py: unidecode of the stripped text,
whitespace collapsed, uppercased. -/
def norm (s : String) : String :=
  ⟨(squeezeWsChars (unidecodeChars (pyStripChars s.data))).map pyUpperChar⟩

/-- str.capitalize on an already-normalized (ASCII) word. -/
def pyCapitalize (cs : List Char) : List Char :=
  match cs with
  | [] => []
  | c :: rest => pyUpperChar c :: rest.map pyLowerChar

/-- _normalizar_secao: map the normalized section header onto a canonical
label, first pattern wins; otherwise title-case the normalized text. -/
def normalizar_secao (s : String) : String :=
  let base := (norm s).data
  if searchToks (csWordToks "COMPRAS" ++ [.wsP] ++ csWordToks "INT") base then
    "Compras Internacionais"
  else if searchToks (csWordToks "COMPRAS" ++ [.wsP] ++ csWordToks "NAC") base
    then "Compras Nacionais"
  else if searchToks (csWordToks "ASSINATURAS") base then
    "Assinaturas/Serviços"
  else if searchToks (csWordToks "PARCELAD") base then "Parcelados"
  else if searchToks (csWordToks "TARIF") base then "Tarifas"
  else if searchToks (csWordToks "SEGURO") base then "Seguros"
  else if searchToks (csWordToks "ESTORNO") base then "Estornos"
  else if searchToks (csWordToks "LAN" ++ cedilhaToks ++
      csWordToks "AMENTOS" ++ [.wsP] ++ csWordToks "DIVERSOS") base then
    "Lançamentos Diversos"
  else if searchToks (csWordToks "SERVI" ++ cedilhaToks ++ csWordToks "OS")
      base then "Serviços"
  else if searchToks (csWordToks "OUTROS") base then "Outros"
  else
    ⟨List.intercalate [' '] ((pySplitWsChars base).map pyCapitalize)⟩

/-- The installment-tag pattern of flush_block: word-bounded PARC, one or
more spaces, two digits, slash, two digits, word boundary; returns the
matched text and the two numbers. -/
def parcFind (prev : Option Char) (cs : List Char) :
    Option (List Char × Nat × Nat) :=
  let here : Option (List Char × Nat × Nat) :=
    if boundaryL prev then
      match matchToks (ciWordToks "PARC") cs with
      | some rest =>
        let run := rest.takeWhile pyIsSpace
        if run.isEmpty then none
        else
          match rest.dropWhile pyIsSpace with
          | d1 :: d2 :: '/' :: d3 :: d4 :: r2 =>
            if pyIsDigit d1 && pyIsDigit d2 && pyIsDigit d3 &&
                pyIsDigit d4 && boundaryR r2 then
              some (cs.take (4 + run.length + 5),
                10 * (d1.val.toNat - 48) + (d2.val.toNat - 48),
                10 * (d3.val.toNat - 48) + (d4.val.toNat - 48))
            else none
          | _ => none
      | none => none
    else none
  match here with
  | some res => some res
  | none =>
    match cs with
    | [] => none
    | c :: r => parcFind (some c) r

/-! ### cartao_credito/parsers/bb/lancamentos.py: core -/

/-- parse_decimal_br: strip, drop thousands dots, decimal comma to point,
then Decimal; none exactly when Decimal raises. -/
def parse_decimal_br (s : String) : Option Dec :=
  pyDecimalOfChars
    (((pyStripChars s.data).filter (fun c => c ≠ '.')).map
      fun c => if c = ',' then '.' else c)

/-- A parsed transaction before the dedup ordinal is assigned. -/
structure PreLanc where
  data : Date
  descricao : String
  cidade : Option String
  pais : Option String
  secao : Option String
  valor : Dec
  parcela_num : Option Nat
  parcela_total : Option Nat
  etiqueta_parcela : String
  hash_linha : String
deriving DecidableEq, Repr

/-- The LancamentoBruto dataclass. -/
structure LancamentoBruto where
  data : Date
  descricao : String
  cidade : Option String
  pais : Option String
  secao : Option String
  valor : Dec
  parcela_num : Option Nat
  parcela_total : Option Nat
  etiqueta_parcela : String
  hash_linha : String
  hash_ordem : Nat
  is_duplicado : Bool
deriving DecidableEq, Repr

/-- _hash_linha: sha1 over the joined normalized fields. -/
def hash_linha (d : String) (vCent : Int) (desc : String) (cid : String)
    (pais : String) (etiqueta : String) : String :=
  sha1 (d ++ "|" ++ toString vCent ++ "|" ++ norm desc ++ "|" ++ norm cid ++
    "|" ++ norm pais ++ "|" ++ norm etiqueta)

/-- _rollover_ano: the date in the close year, or in the previous year when
it falls strictly after the close date; none when the date constructor
raises. -/
def rollover_ano (dia mes : Nat) (fechado_em : Date) : Option Date :=
  match mkDate fechado_em.year mes dia with
  | none => none
  | some dt =>
    if Date.ltb fechado_em dt then mkDate ((fechado_em.year : Int) - 1) mes dia
    else some dt

/-- _linhas_apos_ancora: the lines after the first anchor line, or all
lines when no anchor is present. -/
def linhasAposAncoraGo : List String → Option (List String)
  | [] => none
  | l :: rest =>
    if anchorLancTest l.data then some rest else linhasAposAncoraGo rest

def linhas_apos_ancora (texto : String) : List String :=
  let linhas := pySplitlines texto
  (linhasAposAncoraGo linhas).getD linhas

/-- The value-line scan of flush_block: first line that is not a skip line
and carries a trailing R$ amount; returns its index and the valor group. -/
def findValorIdx : List String → Nat → Option (Nat × List Char)
  | [], _ => none
  | t :: rest, j =>
    let cand := pyStripChars t.data
    if skipValueLineTest cand then findValorIdx rest (j + 1)
    else
      match valorFinalSearch cand with
      | some g => some (j, g)
      | none => findValorIdx rest (j + 1)

/-- The fields flush_block extracts from one accumulated block (steps 1-6
of the source): date, cleaned description, country, amount and installment
tag; an error models the exceptions the Python code can raise (invalid
date construction, malformed Decimal). -/
structure FlushOut where
  data : Date
  descricao : String
  pais : Option String
  valor : Dec
  parcela_num : Option Nat
  parcela_total : Option Nat
  etiqueta : String
deriving DecidableEq, Repr

def flushFields (fechado_em : Date) (blockTexts0 : List String) :
    Except String (Option FlushOut) :=
  let blockTexts := blockTexts0.filter fun t => !(pyStrip t).isEmpty
  match blockTexts with
  | [] => .ok none
  | ft :: _ =>
    let first_line := pyStrip ft
    match reDataCurtaMatch first_line.data with
    | none => .ok none
    | some (dia, mes) =>
      match rollover_ano dia mes fechado_em with
      | none => .error "ValueError: invalid date"
      | some data_lcto =>
        match findValorIdx blockTexts 0 with
        | none => .ok none
        | some (lastIdx, valGroup) =>
          match parse_decimal_br ⟨valGroup.filter (fun c => c ≠ ' ')⟩ with
          | none => .error "InvalidOperation: malformed decimal"
          | some valor =>
            let primeira_sem_data : String :=
              pyStrip ⟨first_line.data.drop 5⟩
            let (primeira_limpa, pais_det) :=
              limpar_primeira_linha_sem_data primeira_sem_data
            let meio := ((blockTexts.drop 1).take (lastIdx - 1)).map pyStrip
            let desc_partes :=
              ((if primeira_limpa.isEmpty then [] else [primeira_limpa]) ++
                meio.filter (fun p => !p.isEmpty)).filter
                fun p => !p.isEmpty
            let descricao0 :=
              pyStrip (String.intercalate " " desc_partes)
            let descricao1 :=
              pyStrip ⟨squeeze2Ws descricao0.data⟩
            let descricao :=
              if descricao1.isEmpty then
                let fallback := pyStrip ⟨moedaFimSub primeira_sem_data.data⟩
                if fallback.isEmpty then "LANÇAMENTO" else fallback
              else descricao1
            let desc_upper : String := ⟨descricao.data.map pyUpperChar⟩
            if valor.ltZero && pgtoDebitoTest desc_upper.data then .ok none
            else
              let bloco_ate_valor :=
                String.intercalate " " (blockTexts.take (lastIdx + 1))
              let (etiqueta, parcela_num, parcela_total) :=
                match parcFind none bloco_ate_valor.data with
                | some (m, n, t) => ((⟨m⟩ : String), some n, some t)
                | none => ("", none, none)
              .ok (some
                { data := data_lcto
                  descricao := descricao
                  pais := pais_det
                  valor := valor
                  parcela_num := parcela_num
                  parcela_total := parcela_total
                  etiqueta := etiqueta })

/-- Steps 7-8 of flush_block: city is deliberately left empty, the section
label is attached, the content hash is computed over the fields. -/
def mkPreLanc (fb : FlushOut) (secao : Option String) : PreLanc :=
  let cidade : Option String := none
  { data := fb.data
    descricao := fb.descricao
    cidade := cidade
    pais := fb.pais
    secao := secao
    valor := fb.valor
    parcela_num := fb.parcela_num
    parcela_total := fb.parcela_total
    etiqueta_parcela := fb.etiqueta
    hash_linha := hash_linha fb.data.isoformat (valorCent fb.valor)
      fb.descricao (cidade.getD "") (fb.pais.getD "") fb.etiqueta }

/-- flush_block: resolve one accumulated block into at most one
transaction. -/
def flushBlock (fechado_em : Date) (secao : Option String)
    (blockTexts0 : List String) : Except String (Option PreLanc) :=
  match flushFields fechado_em blockTexts0 with
  | .error e => .error e
  | .ok none => .ok none
  | .ok (some fb) => .ok (some (mkPreLanc fb secao))

/-- The per-line scan of parse_lancamentos: section headers update the
current section, date lines flush the open block and start a new one, other
non-blank lines extend the open block; the final block is flushed at end of
stream. -/
def scanLines (fechado_em : Date) : List String → List String →
    Option String → Except String (List PreLanc)
  | [], block, secao =>
    (flushBlock fechado_em secao block).map fun o => o.toList
  | raw :: rest, block, secao =>
    if (pyStrip raw).isEmpty then scanLines fechado_em rest block secao
    else if (reDataCurtaMatch (pyStrip raw).data).isNone &&
        secaoTest (pyStrip raw).data then
      scanLines fechado_em rest block (some (normalizar_secao (pyStrip raw)))
    else if (reDataCurtaMatch (pyStrip raw).data).isSome then
      match flushBlock fechado_em secao block with
      | .error e => .error e
      | .ok o =>
        match scanLines fechado_em rest [pyStrip raw] secao with
        | .error e => .error e
        | .ok l => .ok (o.toList ++ l)
    else
      if block.isEmpty then scanLines fechado_em rest block secao
      else scanLines fechado_em rest (block ++ [pyStrip raw]) secao

/-- Lookup in the per-statement hash counter (defaultdict(int)). -/
def countOf : List (String × Nat) → String → Nat
  | [], _ => 0
  | (k, v) :: rest, h => if k = h then v else countOf rest h

def bumpCount : List (String × Nat) → String → List (String × Nat)
  | [], h => [(h, 1)]
  | (k, v) :: rest, h =>
    if k = h then (k, v + 1) :: rest else (k, v) :: bumpCount rest h

/-- The dedup ordinal assignment of flush_block: the Nth transaction with a
given hash (in emission order) receives ordinal N, and ordinal greater than
one marks a duplicate. -/
def assignOrdem (m : List (String × Nat)) : List PreLanc →
    List LancamentoBruto
  | [] => []
  | p :: ps =>
    let n := countOf m p.hash_linha + 1
    { data := p.data
      descricao := p.descricao
      cidade := p.cidade
      pais := p.pais
      secao := p.secao
      valor := p.valor
      parcela_num := p.parcela_num
      parcela_total := p.parcela_total
      etiqueta_parcela := p.etiqueta_parcela
      hash_linha := p.hash_linha
      hash_ordem := n
      is_duplicado := decide (n > 1) } ::
      assignOrdem (bumpCount m p.hash_linha) ps

/-- The final stable sort by transaction date (linhas.sort(key=data);
Python sorts are stable, and insertionSort with a reflexive relation is the
canonical stable sort). -/
def sortByData (l : List LancamentoBruto) : List LancamentoBruto :=
  List.insertionSort (fun a b => a.data.leb b.data = true) l

/-- parse_lancamentos (the debug parameters of the source are declared but
unused in its body; the dados_fatura argument is consumed only through its
fechado_em field, which is taken directly). -/
def parse_lancamentos (texto : String) (fechado_em : Date) :
    Except String (List LancamentoBruto) :=
  if texto.isEmpty || (pyStrip texto).length < 30 then .ok []
  else
    match scanLines fechado_em (linhas_apos_ancora texto) [] none with
    | .error e => .error e
    | .ok pres => .ok (sortByData (assignOrdem [] pres))

/-! ### cartao_credito/parsers/bb/dados_fatura.py -/

/-- A dd/mm/yyyy token starting a character stream: the RE_DATA group. -/
def dateTokenAt (cs : List Char) : Option (String × List Char) :=
  match cs with
  | d1 :: d2 :: '/' :: m1 :: m2 :: '/' :: y1 :: y2 :: y3 :: y4 :: rest =>
    if pyIsDigit d1 && pyIsDigit d2 && pyIsDigit m1 && pyIsDigit m2 &&
        pyIsDigit y1 && pyIsDigit y2 && pyIsDigit y3 && pyIsDigit y4 then
      some (⟨[d1, d2, '/', m1, m2, '/', y1, y2, y3, y4]⟩, rest)
    else none
  | _ => none

/-- datetime.strptime(s, "%d/%m/%Y").date(): none exactly when Python
raises ValueError (shape is guaranteed by the regex, so only calendar
validity can fail here). -/
def parseDateStr (s : String) : Option Date :=
  match s.data with
  | [d1, d2, '/', m1, m2, '/', y1, y2, y3, y4] =>
    if pyIsDigit d1 && pyIsDigit d2 && pyIsDigit m1 && pyIsDigit m2 &&
        pyIsDigit y1 && pyIsDigit y2 && pyIsDigit y3 && pyIsDigit y4 then
      mkDate
        (1000 * (y1.val.toNat - 48) + 100 * (y2.val.toNat - 48) +
          10 * (y3.val.toNat - 48) + (y4.val.toNat - 48) : Nat)
        (10 * (m1.val.toNat - 48) + (m2.val.toNat - 48))
        (10 * (d1.val.toNat - 48) + (d2.val.toNat - 48))
    else none
  | _ => none

/-- PAT_FECHAMENTO.search: word-bounded "fatura fechada em" or "fechada em"
followed by whitespace and a date; yields the date token (the group the
source reads through lastindex). -/
def fechSearch (prev : Option Char) (cs : List Char) : Option String :=
  let tail (rest : List Char) : Option String :=
    match matchToks [RTok.wsP] rest with
    | some r2 => (dateTokenAt r2).map Prod.fst
    | none => none
  let here : Option String :=
    if boundaryL prev then
      match matchToks (ciWordToks "FATURA" ++ [.wsP] ++
          ciWordToks "FECHADA" ++ [.wsP] ++ ciWordToks "EM") cs with
      | some rest =>
        match tail rest with
        | some d => some d
        | none =>
          match matchToks (ciWordToks "FECHADA" ++ [.wsP] ++
              ciWordToks "EM") cs with
          | some rest2 => tail rest2
          | none => none
      | none =>
        match matchToks (ciWordToks "FECHADA" ++ [.wsP] ++
            ciWordToks "EM") cs with
        | some rest2 => tail rest2
        | none => none
    else none
  match here with
  | some d => some d
  | none =>
    match cs with
    | [] => none
    | c :: r => fechSearch (some c) r

/-- The lazy gap of PAT_VENCIMENTO: a date within 0..80 characters. -/
def vencGap : Nat → List Char → Option String
  | k, cs =>
    if k > 80 then none
    else
      match dateTokenAt cs with
      | some (d, _) => some d
      | none =>
        match cs with
        | [] => none
        | _ :: r => vencGap (k + 1) r

/-- PAT_VENCIMENTO.search: the word "vencimento" followed within 80
characters by a date. -/
def vencSearch (prev : Option Char) (cs : List Char) : Option String :=
  let here : Option String :=
    if boundaryL prev then
      match matchToks (ciWordToks "VENCIMENTO") cs with
      | some rest => if boundaryR rest then vencGap 0 rest else none
      | none => none
    else none
  match here with
  | some d => some d
  | none =>
    match cs with
    | [] => none
    | c :: r => vencSearch (some c) r

/-- The final\s*(\d{4})\b core shared by both alternatives of
PAT_FINAL_CARTAO (the \b in front is checked by the caller). -/
def finalCore (cs : List Char) : Option String :=
  match matchToks (ciWordToks "FINAL") cs with
  | some rest =>
    match rest.dropWhile pyIsSpace with
    | n1 :: n2 :: n3 :: n4 :: r2 =>
      if pyIsDigit n1 && pyIsDigit n2 && pyIsDigit n3 && pyIsDigit n4 &&
          boundaryR r2 then
        some ⟨[n1, n2, n3, n4]⟩
      else none
    | _ => none
  | none => none

/-- Leftmost \bfinal\s*(\d{4})\b from a given context. -/
def findFinalNum (prev : Option Char) (cs : List Char) : Option String :=
  let here : Option String :=
    if boundaryL prev then finalCore cs else none
  match here with
  | some d => some d
  | none =>
    match cs with
    | [] => none
    | c :: r => findFinalNum (some c) r

/-- PAT_FINAL_CARTAO.search: either a word-bounded "final NNNN", or
"cartão"/"cartao" followed (lazily, at any distance) by a word-bounded
"final NNNN"; yields the four digits (the first non-null group). -/
def finalSearch (prev : Option Char) (cs : List Char) : Option String :=
  let alt1 : Option String :=
    if boundaryL prev then finalCore cs else none
  let here : Option String :=
    match alt1 with
    | some d => some d
    | none =>
      match matchToks (ciWordToks "CART" ++
          [RTok.cls fun c => c = 'ã' || c = 'Ã' || ciEq c 'A'] ++
          ciWordToks "O") cs with
      | some rest => findFinalNum (some 'O') rest
      | none => none
  match here with
  | some d => some d
  | none =>
    match cs with
    | [] => none
    | c :: r => finalSearch (some c) r

/-- The R$ amount group after the lazy gap of PAT_TOTAL_DA_FATURA:
leftmost R$ followed by whitespace, optional sign, whitespace and a
nonempty digits/dots/commas run; yields the group (no end anchor). -/
def totalAfter : List Char → Option (List Char)
  | [] => none
  | 'R' :: '$' :: rest =>
    let a := rest.dropWhile pyIsSpace
    let (sign, b) :=
      match a with
      | '+' :: r => (['+'], r)
      | '-' :: r => (['-'], r)
      | _ => (([] : List Char), a)
    let inner := b.takeWhile pyIsSpace
    let c := b.dropWhile pyIsSpace
    let run := c.takeWhile isValorChar
    if run.isEmpty then totalAfter ('$' :: rest)
    else some (sign ++ inner ++ run)
  | _ :: rest => totalAfter rest

/-- PAT_TOTAL_DA_FATURA.search: word-bounded TOTAL DA FATURA, then the
first R$ amount after it. -/
def totalSearch (prev : Option Char) (cs : List Char) : Option (List Char) :=
  let here : Option (List Char) :=
    if boundaryL prev then
      match matchToks (ciWordToks "TOTAL" ++ [.wsP] ++ ciWordToks "DA" ++
          [.wsP] ++ ciWordToks "FATURA") cs with
      | some rest => if boundaryR rest then totalAfter rest else none
      | none => none
    else none
  match here with
  | some g => some g
  | none =>
    match cs with
    | [] => none
    | c :: r => totalSearch (some c) r

def isAsciiAlphanum (c : Char) : Bool :=
  isAsciiUpperAlpha c || isAsciiLowerAlpha c || pyIsDigit c

/-- One brand alternative: a literal word, capturing the matched original
characters. -/
def bandLit (word : String) (cs : List Char) :
    Option (List Char × List Char) :=
  let n := word.length
  if (cs.take n).length = n &&
      ((cs.take n).zip word.data).all (fun p => ciEq p.1 p.2) then
    some (cs.take n, cs.drop n)
  else none

/-- The AMERICAN\s+EXPRESS alternative, capturing the original matched
characters including the actual whitespace run. -/
def bandAmericanExpress (cs : List Char) : Option (List Char × List Char) :=
  match bandLit "AMERICAN" cs with
  | some (m1, rest) =>
    let run := rest.takeWhile pyIsSpace
    if run.isEmpty then none
    else
      match bandLit "EXPRESS" (rest.dropWhile pyIsSpace) with
      | some (m2, rest2) => some (m1 ++ run ++ m2, rest2)
      | none => none
  | none => none

/-- The brand alternation of PAT_BANDEIRA_OUROCARD, in pattern order, with
the trailing word boundary. -/
def bandAltOuro (cs : List Char) : Option (List Char) :=
  let alts := [bandLit "VISA" cs, bandLit "MASTERCARD" cs, bandLit "ELO" cs,
    bandLit "AMEX" cs, bandAmericanExpress cs, bandLit "PLATINUM" cs]
  (alts.filterMap fun o =>
      match o with
      | some (m, rest) => if boundaryR rest then some m else none
      | none => none).head?

/-- PAT_BANDEIRA_OUROCARD.search: word-bounded OUROCARD, a nonempty run of
non-ASCII-alphanumeric characters, then a brand alternative with a word
boundary. -/
def bandeiraOuroSearch (prev : Option Char) (cs : List Char) :
    Option String :=
  let here : Option String :=
    if boundaryL prev then
      match matchToks (ciWordToks "OUROCARD") cs with
      | some rest =>
        if boundaryR rest then
          let gap := rest.takeWhile fun c => !isAsciiAlphanum c
          if gap.isEmpty then none
          else
            (bandAltOuro (rest.dropWhile fun c => !isAsciiAlphanum c)).map
              fun m => ⟨m⟩
        else none
      | none => none
    else none
  match here with
  | some b => some b
  | none =>
    match cs with
    | [] => none
    | c :: r => bandeiraOuroSearch (some c) r

/-- The brand alternation of PAT_BANDEIRA_GENERIC, in pattern order, with
the trailing word boundary. -/
def bandAltGeneric (cs : List Char) : Option (List Char) :=
  let alts := [bandLit "VISA" cs, bandLit "MASTERCARD" cs, bandLit "ELO" cs,
    bandLit "AMEX" cs, bandAmericanExpress cs, bandLit "HIPERCARD" cs]
  (alts.filterMap fun o =>
      match o with
      | some (m, rest) => if boundaryR rest then some m else none
      | none => none).head?

/-- PAT_BANDEIRA_GENERIC.search: a word-bounded brand keyword anywhere. -/
def bandeiraGenericSearch (prev : Option Char) (cs : List Char) :
    Option String :=
  let here : Option String :=
    if boundaryL prev then (bandAltGeneric cs).map fun m => ⟨m⟩ else none
  match here with
  | some b => some b
  | none =>
    match cs with
    | [] => none
    | c :: r => bandeiraGenericSearch (some c) r

def pyUpperStr (s : String) : String :=
  ⟨s.data.map pyUpperChar⟩

def pyLowerStr (s : String) : String :=
  ⟨s.data.map pyLowerChar⟩

/-- _extrair_bandeira: strict OUROCARD-anchored pattern first, generic
fallback with an observation, stronger observation when nothing found. -/
def extrair_bandeira (texto : String) : Option String × List String :=
  match bandeiraOuroSearch none texto.data with
  | some b =>
    let band := pyUpperStr b
    (some (if band = "AMERICAN EXPRESS" then "AMEX" else band), [])
  | none =>
    match bandeiraGenericSearch none texto.data with
    | some b =>
      let band := pyUpperStr b
      (some (if band = "AMERICAN EXPRESS" then "AMEX" else band),
        ["Bandeira detectada fora do cabeçalho OUROCARD; verifique se está correta."])
    | none => (none, ["Bandeira do cartão não detectada no PDF."])

/-- _texto_apos_ancora, with the fallback made explicit: some of the text
after the anchor line when the anchor is present (the source returns a
fresh string there), none when absent (the source returns the input object
itself, which the caller detects by identity to record the observation). -/
def texto_apos_ancora (texto : String) : Option String :=
  (linhasAposAncoraGo (pySplitlines texto)).map fun ls =>
    String.intercalate "\n" ls

/-- The DadosFatura dataclass (the statement header). -/
structure DadosFatura where
  emissor : String
  cartao_final : String
  bandeira : Option String
  fechado_em : Date
  vencimento_em : Date
  competencia : Date
  total : Option Dec
  arquivo_hash : String
  observacoes : List String
deriving DecidableEq, Repr

/-- The exceptions parse_dados_fatura can raise: the two explicit
ValueError raises of the source, the ValueError datetime.strptime raises on
an invalid calendar date, and the InvalidOperation Decimal raises on a
malformed captured total. -/
inductive DFError
  | poucoTexto (msg : String)
  | dadosNaoEncontrados (msg : String)
  | dataInvalida (token : String)
  | totalInvalido (token : String)
deriving DecidableEq, Repr

def containsSub (hay needle : List Char) : Bool :=
  needle.isPrefixOf hay ||
    match hay with
    | [] => false
    | _ :: rest => containsSub rest needle

/-- The diagnostic-keyword list of the missing-fields error path. -/
def chavesPreview : List String :=
  ["Fatura fechada", "fechada em", "Vencimento", "Final", "Cartão",
    "Total", "OUROCARD", "VISA", "MASTERCARD", "ELO", "AMEX"]

/-- The diagnostic preview: lines containing any keyword
(case-insensitively), capped at 12; the first 18 lines when no keyword
hits. -/
def previewLinhas (texto : String) : String :=
  let linhas := pySplitlines texto
  let hits := linhas.filter fun ln =>
    chavesPreview.any fun ch =>
      containsSub (pyLowerStr ln).data (pyLowerStr ch).data
  String.intercalate "\n" (if hits.isEmpty then linhas.take 18 else hits.take 12)

/-- The list of missing critical fields, in source order. -/
def faltandoList (texto : String) : List String :=
  (if (fechSearch none texto.data).isNone then
    ["fechamento (\"Fatura fechada em\")"] else []) ++
  (if (vencSearch none texto.data).isNone then
    ["vencimento (\"Vencimento\")"] else []) ++
  (if (finalSearch none texto.data).isNone then
    ["final do cartão (\"Final 1234\")"] else [])

def msgDadosNaoEncontrados (texto : String) : String :=
  "Dados da fatura não encontrados: " ++
    String.intercalate ", " (faltandoList texto) ++
    "\nPrévia de linhas relevantes:\n" ++ previewLinhas texto

/-- %d/%m/%Y rendering used in the due-before-close observation. -/
def dateBR (d : Date) : String :=
  padNum 2 d.day ++ "/" ++ padNum 2 d.month ++ "/" ++ padNum 4 d.year

/-- parse_dados_fatura: extract the statement header, or the exception the
source raises. -/
def parse_dados_fatura (texto : String) : Except DFError DadosFatura :=
  if texto.isEmpty || (pyStrip texto).length < 30 then
    .error (.poucoTexto "Pouco texto extraído; o PDF pode ser escaneado sem OCR.")
  else
    let arquivo_hash := sha1 texto
    match fechSearch none texto.data, vencSearch none texto.data,
        finalSearch none texto.data with
    | some fechadoStr, some vencStr, some cartao_final =>
      match parseDateStr fechadoStr with
      | none => .error (.dataInvalida fechadoStr)
      | some fechado_em =>
        match parseDateStr vencStr with
        | none => .error (.dataInvalida vencStr)
        | some vencimento_em =>
          let obs0 : List String :=
            if vencimento_em.ltb fechado_em then
              ["Vencimento (" ++ dateBR vencimento_em ++
                ") anterior ao fechamento (" ++ dateBR fechado_em ++
                "). Verificar PDF."]
            else []
          let (bandeira, obsBand) := extrair_bandeira texto
          let obs1 := obs0 ++ obsBand
          let (regiao, obs2) :=
            match texto_apos_ancora texto with
            | some pos => (pos, obs1)
            | none =>
              (texto, obs1 ++
                ["Âncora 'Lançamentos nesta fatura' não encontrada; total buscado no texto inteiro."])
          match totalSearch none regiao.data with
          | some g =>
            match parse_decimal_br ⟨g⟩ with
            | none => .error (.totalInvalido ⟨g⟩)
            | some total =>
              .ok { emissor := "Banco do Brasil"
                    cartao_final := cartao_final
                    bandeira := bandeira
                    fechado_em := fechado_em
                    vencimento_em := vencimento_em
                    competencia := competencia_from_fechamento fechado_em
                    total := some total
                    arquivo_hash := arquivo_hash
                    observacoes := obs2 }
          | none =>
            .ok { emissor := "Banco do Brasil"
                  cartao_final := cartao_final
                  bandeira := bandeira
                  fechado_em := fechado_em
                  vencimento_em := vencimento_em
                  competencia := competencia_from_fechamento fechado_em
                  total := none
                  arquivo_hash := arquivo_hash
                  observacoes := obs2 ++
                    ["Total da Fatura (após a âncora) não encontrado no PDF."] }
    | _, _, _ => .error (.dadosNaoEncontrados (msgDadosNaoEncontrados texto))

/-! ### cartao_credito/services/parcelados.py: patterns -/

/-- General word boundary between a left character and the rest of the
input (string edges count as non-word). -/
def bAt (left : Option Char) (right : List Char) : Bool :=
  let lw := match left with
    | none => false
    | some c => isWordChar c
  let rw := match right with
    | [] => false
    | c :: _ => isWordChar c
  lw != rw

/-- A one-or-two digit group with its value, in greedy order (two digits
first); each candidate carries (consumed length, value, rest). -/
def digits12 (cs : List Char) : List (Nat × Nat × List Char) :=
  match cs with
  | d1 :: d2 :: rest =>
    if pyIsDigit d1 && pyIsDigit d2 then
      [(2, 10 * (d1.val.toNat - 48) + (d2.val.toNat - 48), rest),
        (1, d1.val.toNat - 48, d2 :: rest)]
    else if pyIsDigit d1 then [(1, d1.val.toNat - 48, d2 :: rest)]
    else []
  | [d1] => if pyIsDigit d1 then [(1, d1.val.toNat - 48, [])] else []
  | [] => []

/-- The suffix alternation of RE_WORD_PARC after the literal PARC, with its
trailing word boundary: a dot, ELA, ELAS, ELADO/ELADA, ELAMENTO/ELAMENTA or
nothing, tried in pattern order with backtracking on the boundary. -/
def wordParcSuffix (cs : List Char) : Option Nat :=
  let tryTok (ts : List RTok) (n : Nat) : Option Nat :=
    match matchToks ts cs with
    | some rest => if boundaryR rest then some n else none
    | none => none
  let dot : Option Nat :=
    match cs with
    | '.' :: rest => if bAt (some '.') rest then some 1 else none
    | _ => none
  (dot <|> tryTok (ciWordToks "ELAS") 4 <|> tryTok (ciWordToks "ELA") 3 <|>
    tryTok (ciWordToks "ELADO") 5 <|> tryTok (ciWordToks "ELADA") 5 <|>
    tryTok (ciWordToks "ELAMENTO") 8 <|> tryTok (ciWordToks "ELAMENTA") 8) <|>
    (if boundaryR cs then some 0 else none)

/-- RE_WORD_PARC at one position: (\b or a hyphen) then PARC and an
optional suffix; returns the consumed length. -/
def wordParcAt (prev : Option Char) (cs : List Char) : Option Nat :=
  let viaB : Option Nat :=
    if boundaryL prev then
      match matchToks (ciWordToks "PARC") cs with
      | some rest => (wordParcSuffix rest).map fun n => 4 + n
      | none => none
    else none
  match viaB with
  | some n => some n
  | none =>
    match cs with
    | '-' :: cs2 =>
      match matchToks (ciWordToks "PARC") cs2 with
      | some rest => (wordParcSuffix rest).map fun n => 5 + n
      | none => none
    | _ => none

/-- RE_FRAC at one position: \b \d{1,2} \s* / \s* \d{1,2} \b; returns
(length, first number, second number). -/
def fracAt (prev : Option Char) (cs : List Char) :
    Option (Nat × Nat × Nat) :=
  if !boundaryL prev then none
  else
    (digits12 cs).firstM fun (len1, n1, rest1) => do
      let ws1 := rest1.takeWhile pyIsSpace
      match rest1.dropWhile pyIsSpace with
      | '/' :: rest2 =>
        let ws2 := rest2.takeWhile pyIsSpace
        (digits12 (rest2.dropWhile pyIsSpace)).firstM
          fun (len2, n2, rest3) =>
            if boundaryR rest3 then
              some (len1 + ws1.length + 1 + ws2.length + len2, n1, n2)
            else none
      | _ => none

/-- RE_DE_FORM at one position: \b \d{1,2} \s* de \s* \d{1,2} \b
(case-insensitive). -/
def deFormAt (prev : Option Char) (cs : List Char) :
    Option (Nat × Nat × Nat) :=
  if !boundaryL prev then none
  else
    (digits12 cs).firstM fun (len1, n1, rest1) => do
      let ws1 := rest1.takeWhile pyIsSpace
      match rest1.dropWhile pyIsSpace with
      | c1 :: c2 :: rest2 =>
        if ciEq c1 'D' && ciEq c2 'E' then
          let ws2 := rest2.takeWhile pyIsSpace
          (digits12 (rest2.dropWhile pyIsSpace)).firstM
            fun (len2, n2, rest3) =>
              if boundaryR rest3 then
                some (len1 + ws1.length + 2 + ws2.length + len2, n1, n2)
              else none
        else none
      | _ => none

/-- RE_X_SIMPLE at one position: \b \d{1,2} \s* [xX] \b. -/
def xSimpleAt (prev : Option Char) (cs : List Char) : Option Nat :=
  if !boundaryL prev then none
  else
    (digits12 cs).firstM fun (len1, _, rest1) => do
      let ws1 := rest1.takeWhile pyIsSpace
      match rest1.dropWhile pyIsSpace with
      | x :: rest2 =>
        if (x = 'x' || x = 'X') && boundaryR rest2 then
          some (len1 + ws1.length + 1)
        else none
      | _ => none

/-- RE_X_PAIR at one position:
\b \d{1,2} \s* [xX] \s* (de \s*)? \d{1,2} \b, the optional de tried
first. -/
def xPairAt (prev : Option Char) (cs : List Char) :
    Option (Nat × Nat × Nat) :=
  if !boundaryL prev then none
  else
    (digits12 cs).firstM fun (len1, n1, rest1) => do
      let ws1 := rest1.takeWhile pyIsSpace
      match rest1.dropWhile pyIsSpace with
      | x :: rest2 =>
        if x = 'x' || x = 'X' then
          let ws2 := rest2.takeWhile pyIsSpace
          let afterWs2 := rest2.dropWhile pyIsSpace
          let second (pfx : Nat) (cs2 : List Char) :
              Option (Nat × Nat × Nat) :=
            (digits12 cs2).firstM fun (len2, n2, rest3) =>
              if boundaryR rest3 then
                some (len1 + ws1.length + 1 + ws2.length + pfx + len2, n1, n2)
              else none
          let withDe : Option (Nat × Nat × Nat) :=
            match afterWs2 with
            | c1 :: c2 :: rest3 =>
              if ciEq c1 'D' && ciEq c2 'E' then
                let ws3 := rest3.takeWhile pyIsSpace
                second (2 + ws3.length) (rest3.dropWhile pyIsSpace)
              else none
            | _ => none
          withDe <|> second 0 afterWs2
        else none
      | _ => none

/-- RE_EM_X at one position: \b em \s+ \d{1,2} [xX] \b. -/
def emXAt (prev : Option Char) (cs : List Char) : Option Nat :=
  if !boundaryL prev then none
  else
    match cs with
    | c1 :: c2 :: rest1 =>
      if ciEq c1 'E' && ciEq c2 'M' then
        let ws1 := rest1.takeWhile pyIsSpace
        if ws1.isEmpty then none
        else
          (digits12 (rest1.dropWhile pyIsSpace)).firstM
            fun (len1, _, rest2) =>
              match rest2 with
              | x :: rest3 =>
                if (x = 'x' || x = 'X') && boundaryR rest3 then
                  some (2 + ws1.length + len1 + 1)
                else none
              | _ => none
      else none
    | _ => none

/-- Generic leftmost search for a positional matcher that yields a match
length. -/
def reSearchLen (m : Option Char → List Char → Option Nat)
    (prev : Option Char) : List Char → Bool
  | [] => (m prev []).isSome
  | c :: r => (m prev (c :: r)).isSome || reSearchLen m (some c) r

/-- Generic leftmost search for a positional matcher that yields groups. -/
def reSearchG (m : Option Char → List Char → Option (Nat × Nat × Nat))
    (prev : Option Char) : List Char → Option (Nat × Nat)
  | [] => (m prev []).map fun t => (t.2.1, t.2.2)
  | c :: r =>
    match m prev (c :: r) with
    | some (_, a, b) => some (a, b)
    | none => reSearchG m (some c) r

/-- Generic re.sub with a fixed replacement: leftmost non-overlapping
matches are replaced, scanning resumes after each match with the original
context.  fuel bounds the number of steps; since every matcher consumes at
least one character, fuel = length + 1 is enough. -/
def reSubAux (m : Option Char → List Char → Option Nat) (repl : List Char) :
    Nat → Option Char → List Char → List Char
  | 0, _, cs => cs
  | fuel + 1, prev, cs =>
    match m prev cs with
    | some len =>
      if len = 0 then cs
      else
        repl ++ reSubAux m repl fuel ((cs.take len).getLast?) (cs.drop len)
    | none =>
      match cs with
      | [] => []
      | c :: r => c :: reSubAux m repl fuel (some c) r

def reSub (m : Option Char → List Char → Option Nat) (repl : List Char)
    (cs : List Char) : List Char :=
  reSubAux m repl (cs.length + 1) none cs

/-! ### core/utils/normaliza.py -/

/-- The symbol-cleaning pattern of normalizar: a nonempty run of characters
outside [A-Z0-9 ]. -/
def simbolosAt (_prev : Option Char) (cs : List Char) : Option Nat :=
  let run := cs.takeWhile fun c =>
    !(isAsciiUpperAlpha c || pyIsDigit c || c = ' ')
  if run.isEmpty then none else some run.length

/-- PARC \s* \d{1,2} \s* / \s* \d{1,2} with word boundaries
(first junk pattern of normalizar). -/
def parcLixoAt (prev : Option Char) (cs : List Char) : Option Nat :=
  if !boundaryL prev then none
  else
    match matchToks (csWordToks "PARC") cs with
    | none => none
    | some rest =>
      let ws0 := rest.takeWhile pyIsSpace
      (digits12 (rest.dropWhile pyIsSpace)).firstM fun (len1, _, rest1) => do
        let ws1 := rest1.takeWhile pyIsSpace
        match rest1.dropWhile pyIsSpace with
        | '/' :: rest2 =>
          let ws2 := rest2.takeWhile pyIsSpace
          (digits12 (rest2.dropWhile pyIsSpace)).firstM
            fun (len2, _, rest3) =>
              if boundaryR rest3 then
                some (4 + ws0.length + len1 + ws1.length + 1 + ws2.length +
                  len2)
              else none
        | _ => none

/-- \d{1,2}/\d{1,2} with word boundaries (second junk pattern). -/
def fracNoWsAt (prev : Option Char) (cs : List Char) : Option Nat :=
  if !boundaryL prev then none
  else
    (digits12 cs).firstM fun (len1, _, rest1) =>
      match rest1 with
      | '/' :: rest2 =>
        (digits12 rest2).firstM fun (len2, _, rest3) =>
          if boundaryR rest3 then some (len1 + 1 + len2) else none
      | _ => none

/-- A literal case-sensitive word with an optional suffix and word
boundaries (BRASIL(IA)?, BR, SAO\s*PAULO, RIO\s*DE\s*JANEIRO are built
from this and from token lists). -/
def litToksAt (pre suf : List RTok) (preLen : Nat)
    (sufLen : Nat) (prev : Option Char) (cs : List Char) : Option Nat :=
  if !boundaryL prev then none
  else
    match matchToks pre cs with
    | none => none
    | some rest =>
      let long : Option Nat :=
        match matchToks suf rest with
        | some rest2 => if boundaryR rest2 then some (preLen + sufLen) else none
        | none => none
      match long with
      | some n => some n
      | none => if boundaryR rest then some preLen else none

/-- \bSAO\s*PAULO\b: the whitespace run length varies, so this one is
matched directly. -/
def saoPauloAt (prev : Option Char) (cs : List Char) : Option Nat :=
  if !boundaryL prev then none
  else
    match matchToks (csWordToks "SAO") cs with
    | none => none
    | some rest =>
      let ws := rest.takeWhile pyIsSpace
      match matchToks (csWordToks "PAULO") (rest.dropWhile pyIsSpace) with
      | some rest2 =>
        if boundaryR rest2 then some (3 + ws.length + 5) else none
      | none => none

/-- \bRIO\s*DE\s*JANEIRO\b. -/
def rioAt (prev : Option Char) (cs : List Char) : Option Nat :=
  if !boundaryL prev then none
  else
    match matchToks (csWordToks "RIO") cs with
    | none => none
    | some rest =>
      let ws1 := rest.takeWhile pyIsSpace
      match matchToks (csWordToks "DE") (rest.dropWhile pyIsSpace) with
      | none => none
      | some rest2 =>
        let ws2 := rest2.takeWhile pyIsSpace
        match matchToks (csWordToks "JANEIRO") (rest2.dropWhile pyIsSpace) with
        | some rest3 =>
          if boundaryR rest3 then
            some (3 + ws1.length + 2 + ws2.length + 7)
          else none
        | none => none

/-- \bBRASIL(IA)?\b. -/
def brasilAt (prev : Option Char) (cs : List Char) : Option Nat :=
  litToksAt (csWordToks "BRASIL") (csWordToks "IA") 6 2 prev cs

/-- \bBR\b. -/
def brAt (prev : Option Char) (cs : List Char) : Option Nat :=
  litToksAt (csWordToks "BR") [] 2 0 prev cs

/-- The two-letter state-code class of normalizar (capitals except
B, E, I, K, N, Q). -/
def isUfChar (c : Char) : Bool :=
  isAsciiUpperAlpha c && !(c = 'B' || c = 'E' || c = 'I' || c = 'K' ||
    c = 'N' || c = 'Q')

/-- \b[ACDFGHJLMOPRSTUVWXYZ]{2}\b. -/
def ufAt (prev : Option Char) (cs : List Char) : Option Nat :=
  if !boundaryL prev then none
  else
    match cs with
    | c1 :: c2 :: rest =>
      if isUfChar c1 && isUfChar c2 && boundaryR rest then some 2 else none
    | _ => none

/-- core.utils.normaliza.normalizar: uppercase, transliterate, clean
symbols, remove junk patterns, collapse whitespace, strip. -/
def normalizar (texto : String) : String :=
  let t0 := unidecodeChars (texto.data.map pyUpperChar)
  let t1 := reSub simbolosAt [' '] t0
  let t2 := reSub parcLixoAt [' '] t1
  let t3 := reSub fracNoWsAt [' '] t2
  let t4 := reSub brasilAt [' '] t3
  let t5 := reSub brAt [' '] t4
  let t6 := reSub saoPauloAt [' '] t5
  let t7 := reSub rioAt [' '] t6
  let t8 := reSub ufAt [' '] t7
  ⟨pyStripChars (squeezeWsChars t8)⟩

/-! ### cartao_credito/services/parcelados.py: pipeline -/

def fracLenAt (prev : Option Char) (cs : List Char) : Option Nat :=
  (fracAt prev cs).map fun t => t.1

def deFormLenAt (prev : Option Char) (cs : List Char) : Option Nat :=
  (deFormAt prev cs).map fun t => t.1

def xPairLenAt (prev : Option Char) (cs : List Char) : Option Nat :=
  (xPairAt prev cs).map fun t => t.1

/-- _try_normalizar: core normalization (the normalizar import succeeds in
this codebase), then removal of every installment token, whitespace
collapse and strip. -/
def try_normalizar (txt : String) : String :=
  let base := (normalizar txt).data
  let b1 := reSub fracLenAt [] base
  let b2 := reSub deFormLenAt [] b1
  let b3 := reSub xPairLenAt [] b2
  let b4 := reSub xSimpleAt [] b3
  let b5 := reSub emXAt [] b4
  let b6 := reSub wordParcAt [] b5
  ⟨pyStripChars (squeezeWsChars b6)⟩

/-- _extract_num_total: first fraction, then the "N de M" form, then the
"NxM" form. -/
def extract_num_total (desc : String) : Option Nat × Option Nat :=
  match reSearchG fracAt none desc.data with
  | some (a, b) => (some a, some b)
  | none =>
    match reSearchG deFormAt none desc.data with
    | some (a, b) => (some a, some b)
    | none =>
      match reSearchG xPairAt none desc.data with
      | some (a, b) => (some a, some b)
      | none => (none, none)

/-- _tem_padrao_parcelado: any installment-wording pattern matches. -/
def tem_padrao_parcelado (texto : String) : Bool :=
  !texto.isEmpty &&
    (reSearchLen wordParcAt none texto.data ||
      reSearchLen fracLenAt none texto.data ||
      reSearchLen deFormLenAt none texto.data ||
      reSearchLen xPairLenAt none texto.data ||
      reSearchLen xSimpleAt none texto.data ||
      reSearchLen emXAt none texto.data)

/-- The persisted Lancamento rows as the grouping engine reads them;
cartao_id carries the value of the guarded attribute access
(l.fatura.cartao_id when fatura and its cartao are set, None otherwise),
and etiqueta_parcela collapses NULL and the empty string, which the source
only ever tests for truthiness. -/
structure Lanc where
  id : Int
  data : Date
  descricao : String
  valor : Dec
  etiqueta_parcela : String
  parcela_total : Option Nat
  cartao_id : Option Nat
deriving DecidableEq, Repr

/-- _eh_candidato. -/
def eh_candidato (l : Lanc) : Bool :=
  tem_padrao_parcelado l.descricao || !l.etiqueta_parcela.isEmpty ||
    (l.parcela_total.getD 0) > 0

/-- _is_next_month: the day gap is within 20..38. -/
def is_next_month (prev curr : Date) : Bool :=
  20 ≤ dateDiffDays curr prev && dateDiffDays curr prev ≤ 38

/-- Sort key (x.data, x.id) of _chain_by_month_and_value. -/
def dataIdLe (a b : Lanc) : Bool :=
  a.data.ltb b.data || (a.data = b.data && a.id ≤ b.id)

/-- The chain walk of _chain_by_month_and_value; rchain holds the current
chain reversed (head = most recent member). -/
def chainWalk : List Lanc → Lanc → List Lanc → List (List Lanc)
  | rchain, last, [] =>
    if (last :: rchain).length ≥ 2 then [(last :: rchain).reverse] else []
  | rchain, last, it :: rest =>
    if is_next_month last.data it.data then
      chainWalk (last :: rchain) it rest
    else
      (if (last :: rchain).length ≥ 2 then [(last :: rchain).reverse]
        else []) ++ chainWalk [] it rest

/-- _chain_by_month_and_value. -/
def chain_by_month_and_value (items : List Lanc) : List (List Lanc) :=
  match List.insertionSort (fun a b => dataIdLe a b = true) items with
  | [] => []
  | x :: rest => chainWalk [] x rest

/-- _make_group_id. -/
def make_group_id (cartao_id : Option Nat) (data_ref : Date)
    (desc_base : String) (val_bucket : String)
    (parcela_total : Option Nat) : String :=
  (sha1 (toString (cartao_id.getD 0) ++ "|" ++ data_ref.isoformat ++ "|" ++
    desc_base ++ "|" ++ val_bucket ++ "|" ++
    toString (parcela_total.getD 0))).take 16

/-- The GrupoParcelado dataclass. -/
structure GrupoParcelado where
  group_id : String
  data_compra : Date
  desc_base : String
  parcela_total : Option Nat
  valor_parcela_medio : Dec
  valor_total_compra : Dec
  qtd_parcelas : Nat
  lancamento_ids : List Int
deriving DecidableEq, Repr

/-- _q2(sum / qtd): the Decimal division runs at 28 significant digits and
is then quantized; for the magnitudes a statement can carry this equals
quantizing the exact quotient, which is what is computed here. -/
def decDivQ2 (s : Dec) (n : Nat) : Dec :=
  ⟨roundHalfUpAway (100 * s.mant) (decPow10 s.exp * n), 2⟩

def decSum (l : List Dec) : Dec :=
  l.foldl Dec.add ⟨0, 0⟩

/-- Python min over the member dates (first minimum wins). -/
def minData : List Date → Date → Date
  | [], acc => acc
  | d :: rest, acc => minData rest (if d.ltb acc then d else acc)

/-- The group synthesis of flush_sub for one chain. -/
def mkGrupo (cartao_id : Option Nat) (desc_base : String)
    (ptotal : Option Nat) (ch : List Lanc) : Option GrupoParcelado :=
  if ch.length < 2 then none
  else
    let valores := ch.map fun x => q2 x.valor
    let qtd := ch.length
    let media := decDivQ2 (decSum valores) qtd
    let total_val := q2 (decSum valores)
    let val_bucket := centsToString media.mant
    let data_ref :=
      match ch with
      | [] => ⟨1, 1, 1⟩
      | x :: rest => minData (rest.map fun y => y.data) x.data
    let gid := make_group_id cartao_id data_ref desc_base val_bucket ptotal
    some
      { group_id := gid
        data_compra := data_ref
        desc_base := desc_base
        parcela_total := ptotal
        valor_parcela_medio := media
        valor_total_compra := total_val
        qtd_parcelas := qtd
        lancamento_ids := ch.map fun x => x.id }

def TOLERANCIA_VALOR_ABS : Dec := ⟨50, 2⟩

/-- The value sub-bucketing loop of agrupar_parcelados: rsub holds the
current sub-bucket reversed, ref the amount of its first member (never
updated). -/
def splitGo (ref : Dec) (rsub : List Lanc) : List Lanc → List (List Lanc)
  | [] => [rsub.reverse]
  | it :: rest =>
    let v := q2 it.valor
    if Dec.leb (Dec.absD (Dec.sub v ref)) TOLERANCIA_VALOR_ABS then
      splitGo ref (it :: rsub) rest
    else
      rsub.reverse :: splitGo (q2 it.valor) [it] rest

def splitByValueTol : List Lanc → List (List Lanc)
  | [] => []
  | x :: rest => splitGo (q2 x.valor) [x] rest

/-- Sort key _q2(x.valor) of the sub-bucketing stage. -/
def valorQ2Le (a b : Lanc) : Bool :=
  (q2 a.valor).mant ≤ (q2 b.valor).mant

/-- Bucket key (cartao_id, desc_base, inferred total). -/
abbrev BKey := Option Nat × String × Option Nat

/-- Insertion-ordered bucket map (Python dicts preserve first-insertion
order of keys; values accumulate in arrival order). -/
def bucketInsert (k : BKey) (l : Lanc) :
    List (BKey × List Lanc) → List (BKey × List Lanc)
  | [] => [(k, [l])]
  | (k', ls) :: rest =>
    if k' = k then (k', ls ++ [l]) :: rest
    else (k', ls) :: bucketInsert k l rest

def buildBuckets : List Lanc → List (BKey × List Lanc) →
    List (BKey × List Lanc)
  | [], acc => acc
  | l :: rest, acc =>
    let desc_base := try_normalizar l.descricao
    let t := (extract_num_total l.descricao).2
    let total : Option Nat :=
      if (l.parcela_total.getD 0) > 0 then l.parcela_total
      else if (t.getD 0) > 0 then t
      else none
    buildBuckets rest (bucketInsert (l.cartao_id, desc_base, total) l acc)

/-- Python string comparison: lexicographic on code points. -/
def pyStrLeChars : List Char → List Char → Bool
  | [], _ => true
  | _ :: _, [] => false
  | a :: as, b :: bs =>
    if a.val.toNat < b.val.toNat then true
    else if b.val.toNat < a.val.toNat then false
    else pyStrLeChars as bs

def pyStrLe (a b : String) : Bool :=
  pyStrLeChars a.data b.data

/-- The reversed result ordering: list.sort(key=(data_compra, desc_base),
reverse=True) is the stable sort by the reversed lexicographic key. -/
def grupoRevLe (a b : GrupoParcelado) : Bool :=
  b.data_compra.ltb a.data_compra ||
    (b.data_compra = a.data_compra && pyStrLe b.desc_base a.desc_base)

/-- The group list of agrupar_parcelados before the final sort: candidate
filter, insertion-ordered buckets, value sub-buckets on the value-sorted
bucket, monthly chains, group synthesis. -/
def gruposNaoOrdenados (itens : List Lanc) : List GrupoParcelado :=
  (buildBuckets (itens.filter eh_candidato) []).flatMap
    fun (k, items_bucket) =>
      (splitByValueTol
          (List.insertionSort (fun a b => valorQ2Le a b = true)
            items_bucket)).flatMap
        fun sub =>
          (chain_by_month_and_value sub).filterMap (mkGrupo k.1 k.2.1 k.2.2)

/-- agrupar_parcelados (the queryset fetch and the return_debug branch are
I/O and diagnostics scaffolding; this is the parsing pipeline with
return_debug=False). -/
def agrupar_parcelados (itens : List Lanc) : List GrupoParcelado :=
  List.insertionSort (fun a b => grupoRevLe a b = true)
    (gruposNaoOrdenados itens)

/-! ### core/templatetags/formatadores.py: moeda_brasileira

float() and the ,.2f format are modelled exactly: a binary64 value is the
dyadic rational nearest to the input (ties to even) and the format prints
it correctly rounded to two decimals (ties to even) with thousands
grouping.  Overflow and subnormals are outside the modelled range; every
value a statement can carry is a normal double. -/

def pow2R (e : Int) : Rat :=
  if 0 ≤ e then ((2 ^ e.toNat : Nat) : Rat)
  else 1 / ((2 ^ (-e).toNat : Nat) : Rat)

/-- Fuel-driven binary logarithm (agrees with Nat.log2 whenever the fuel
is at least the argument). -/
def log2go : Nat → Nat → Nat
  | 0, _ => 0
  | fuel + 1, n => if n ≥ 2 then log2go fuel (n / 2) + 1 else 0

def log2F (n : Nat) : Nat := log2go n n

/-- Round a rational to the nearest integer, ties to even. -/
def roundHERat (x : Rat) : Int :=
  let f := ⌊x⌋
  let r := x - f
  if r < 1 / 2 then f
  else if r > 1 / 2 then f + 1
  else if f % 2 = 0 then f else f + 1

/-- Binary64 rounding of a positive rational: scale into [2^52, 2^53),
round to integer significand (ties to even), scale back. -/
def toDoublePos (x : Rat) : Rat :=
  let lp := log2F x.num.natAbs
  let lq := log2F x.den
  let e0 : Int := (lp : Int) - (lq : Int)
  let e := if x < pow2R e0 then e0 - 1 else e0
  (roundHERat (x / pow2R (e - 52)) : Rat) * pow2R (e - 52)

/-- float(): round a rational to the nearest binary64 value. -/
def toDouble (x : Rat) : Rat :=
  if x = 0 then 0
  else if x < 0 then -toDoublePos (-x)
  else toDoublePos x

def decToRat (d : Dec) : Rat :=
  (d.mant : Rat) / ((decPow10 d.exp : Int) : Rat)

/-- Thousands grouping of an integer digit string, commas every three
digits from the right. -/
def groupThousandsRev : Nat → List Char → List Char
  | _, [] => []
  | k, c :: rest =>
    if k = 3 then c :: ',' :: groupThousandsRev 1 rest
    else c :: groupThousandsRev (k + 1) rest

def groupThousands (s : String) : String :=
  ⟨(groupThousandsRev 1 s.data.reverse).reverse⟩

/-- f-string :,.2f on an exact (dyadic rational) float value: correctly
rounded two decimals, ties to even, thousands commas, sign from the
value. -/
def formatCommaF2 (x : Rat) : String :=
  let n := roundHERat (x * 100)
  let cents := n.natAbs
  (if x < 0 then "-" else "") ++ groupThousands (toString (cents / 100)) ++
    "." ++ padNum 2 (cents % 100)

/-- The separator swap of moeda_brasileira
(replace(",","v").replace(".",",").replace("v",".")). -/
def swapSeps (s : String) : String :=
  ⟨s.data.map fun c => if c = ',' then '.' else if c = '.' then ',' else c⟩

/-- moeda_brasileira on a Decimal value (float conversion never raises for
a Decimal, so the except branch of the filter is unreachable here). -/
def moeda_brasileira (v : Dec) : String :=
  swapSeps (formatCommaF2 (toDouble (decToRat v)))

/-- The decimal digit list of a natural number, most significant first
(the reference form of Nat.toDigits 10, used in proofs). -/
def natDigs (n : Nat) : List Char :=
  if _h : n < 10 then [Nat.digitChar n]
  else natDigs (n / 10) ++ [Nat.digitChar (n % 10)]
decreasing_by exact Nat.div_lt_self (by omega) (by omega)

/-- The canonical two-decimal Brazilian rendering of a nonnegative cent
count, used to state the round-trip claim. -/
def brCanonical (cents : Nat) : String :=
  swapSeps (groupThousands (toString (cents / 100)) ++ "." ++
    padNum 2 (cents % 100))

/-- Whether an Except value is an error (a raised exception). -/
def isErr {e a : Type} : Except e a → Bool
  | .error _ => true
  | .ok _ => false

/-- The reference amount of a sub-bucket: the quantized amount of its first
member. -/
def refDec : List Lanc → Dec
  | [] => ⟨0, 2⟩
  | x :: _ => q2 x.valor

/-- Forget the dedup ordinal of a finalized transaction (used to relate the
output of assignOrdem to its input). -/
def stripOrdem (l : LancamentoBruto) : PreLanc :=
  { data := l.data
    descricao := l.descricao
    cidade := l.cidade
    pais := l.pais
    secao := l.secao
    valor := l.valor
    parcela_num := l.parcela_num
    parcela_total := l.parcela_total
    etiqueta_parcela := l.etiqueta_parcela
    hash_linha := l.hash_linha }

/-- The region in which the statement total is searched: the text after
the anchor line when present, the whole text otherwise. -/
def regiaoTotal (texto : String) : String :=
  (texto_apos_ancora texto).getD texto

/-!
## Theorems

Every claim theorem below is stated against the definitions above, which
are the shallow embedding of the source files.
-/

/-- C10: empty or under-30-character (stripped) text makes
parse_lancamentos return the empty list without raising, while
parse_dados_fatura raises on the same input. -/
theorem short_text_no_transactions (texto : String) (f : Date)
    (h : texto = "" ∨ (pyStrip texto).length < 30) :
    parse_lancamentos texto f = .ok [] ∧
      isErr (parse_dados_fatura texto) = true := by
  have hc : (texto.isEmpty || decide ((pyStrip texto).length < 30)) = true := by
    rcases h with h | h
    · subst h; rfl
    · simp [h]
  constructor
  · unfold parse_lancamentos
    simp only [hc, if_pos]
  · unfold parse_dados_fatura
    simp only [hc, if_pos]
    rfl

theorem short_text_no_transactions_witness :
    ("curto" = "" ∨ (pyStrip "curto").length < 30) ∧
      (parse_lancamentos "curto" ⟨2025, 1, 10⟩ = .ok [] ∧
        isErr (parse_dados_fatura "curto") = true) :=
  ⟨Or.inr (by decide),
    short_text_no_transactions "curto" ⟨2025, 1, 10⟩ (Or.inr (by decide))⟩

/-- C4 counterexample: the claim asserts a resolved date for every DD/MM
token, but for 31/04 no date exists in the close year and _rollover_ano
raises (none) instead of resolving. -/
theorem rollover_ano_cex :
    rollover_ano 31 4 ⟨2025, 6, 1⟩ = none := by decide

/-- C4 amended: whenever the token forms a valid date in the close year,
the resolved date is that date, unless it falls strictly after the close
date, in which case it is the date in the previous year (which itself may
fail to exist, making the parser raise); in particular 31/12 against close
date 2025-01-10 resolves to 2024-12-31. -/
theorem rollover_ano_spec :
    (∀ (dia mes : Nat) (f d : Date),
      mkDate (f.year : Int) mes dia = some d →
        rollover_ano dia mes f =
          if f.ltb d then mkDate ((f.year : Int) - 1) mes dia else some d) ∧
      rollover_ano 31 12 ⟨2025, 1, 10⟩ = some ⟨2024, 12, 31⟩ := by
  constructor
  · intro dia mes f d hmk
    unfold rollover_ano
    rw [hmk]
  · decide

theorem rollover_ano_spec_witness :
    mkDate ((2025 : Nat) : Int) 12 31 = some ⟨2025, 12, 31⟩ ∧
      rollover_ano 31 12 ⟨2025, 1, 10⟩ =
        (if Date.ltb ⟨2025, 1, 10⟩ ⟨2025, 12, 31⟩ then
          mkDate (((2025 : Nat) : Int) - 1) 12 31 else some ⟨2025, 12, 31⟩) :=
  ⟨by decide,
    rollover_ano_spec.1 31 12 ⟨2025, 1, 10⟩ ⟨2025, 12, 31⟩ (by decide)⟩

end Financas

namespace Financas

theorem flushBlock_hash (f : Date) (sec : Option String)
    (block : List String) (p : PreLanc)
    (h : flushBlock f sec block = .ok (some p)) :
    p.hash_linha = hash_linha p.data.isoformat (valorCent p.valor)
      p.descricao (p.cidade.getD "") (p.pais.getD "") p.etiqueta_parcela := by
  unfold flushBlock at h
  cases hf : flushFields f block with
  | error e => rw [hf] at h; exact Except.noConfusion h
  | ok o =>
    rw [hf] at h
    cases o with
    | none => injection h with h1; exact Option.noConfusion h1
    | some fb =>
      injection h with h1
      injection h1 with h2
      subst h2
      dsimp only [mkPreLanc]

end Financas

namespace Financas

/-- Every transaction the line scan emits carries the hash of its own
fields. -/
theorem scanLines_hash (f : Date) :
    ∀ (lines block : List String) (sec : Option String)
      (pres : List PreLanc),
      scanLines f lines block sec = .ok pres → ∀ p ∈ pres,
        p.hash_linha = hash_linha p.data.isoformat (valorCent p.valor)
          p.descricao (p.cidade.getD "") (p.pais.getD "")
          p.etiqueta_parcela := by
  intro lines
  induction lines with
  | nil =>
    intro block sec pres h p hp
    unfold scanLines at h
    cases hf : flushBlock f sec block with
    | error e => rw [hf] at h; exact Except.noConfusion h
    | ok o =>
      rw [hf] at h
      cases o with
      | none => injection h with h1; subst h1; cases hp
      | some q =>
        injection h with h1
        subst h1
        have hpq : p = q := List.mem_singleton.mp hp
        subst hpq
        exact flushBlock_hash f sec block p hf
  | cons raw rest ih =>
    intro block sec pres h p hp
    unfold scanLines at h
    split at h
    · exact ih block sec pres h p hp
    · split at h
      · exact ih block (some (normalizar_secao (pyStrip raw))) pres h p hp
      · split at h
        · cases hf : flushBlock f sec block with
          | error e => rw [hf] at h; exact Except.noConfusion h
          | ok o =>
            rw [hf] at h
            cases hs : scanLines f rest [pyStrip raw] sec with
            | error e => rw [hs] at h; exact Except.noConfusion h
            | ok l =>
              rw [hs] at h
              injection h with h1
              subst h1
              rcases List.mem_append.mp hp with hp1 | hp2
              · cases o with
                | none => cases hp1
                | some q =>
                  have hpq : p = q := List.mem_singleton.mp hp1
                  subst hpq
                  exact flushBlock_hash f sec block p hf
              · exact ih [pyStrip raw] sec l hs p hp2
        · split at h
          · exact ih block sec pres h p hp
          · exact ih (block ++ [pyStrip raw]) sec pres h p hp

end Financas


namespace Financas

theorem countOf_bumpCount_same (m : List (String × Nat)) (hsh : String) :
    countOf (bumpCount m hsh) hsh = countOf m hsh + 1 := by
  induction m with
  | nil => simp [bumpCount, countOf]
  | cons kv rest ih =>
    rcases kv with ⟨k, v⟩
    by_cases hk : k = hsh
    · simp [bumpCount, countOf, hk]
    · simp [bumpCount, countOf, hk, ih]

theorem countOf_bumpCount_ne (m : List (String × Nat)) (h hsh : String)
    (hne : h ≠ hsh) : countOf (bumpCount m h) hsh = countOf m hsh := by
  induction m with
  | nil => simp [bumpCount, countOf, hne]
  | cons kv rest ih =>
    rcases kv with ⟨k, v⟩
    by_cases hk : k = h
    · subst hk
      simp [bumpCount, countOf, hne, ih]
    · simp [bumpCount, countOf, hk, ih]

/-- The filtered ordinal sequence of the dedup engine is a contiguous run
starting right after the current counter value. -/
theorem assignOrdem_filter :
    ∀ (ps : List PreLanc) (m : List (String × Nat)) (hsh : String),
      ((assignOrdem m ps).filter fun l => l.hash_linha == hsh).map
          (fun l => l.hash_ordem) =
        List.range' (countOf m hsh + 1)
          (ps.countP fun p => p.hash_linha == hsh) := by
  intro ps
  induction ps with
  | nil => intro m hsh; simp [assignOrdem]
  | cons p rest ih =>
    intro m hsh
    by_cases hp : p.hash_linha = hsh
    · subst hp
      simp only [assignOrdem, List.filter_cons, List.countP_cons,
        beq_self_eq_true, if_pos, List.map_cons, ih,
        countOf_bumpCount_same, List.range'_succ]
    · have hb : (p.hash_linha == hsh) = false := by simp [hp]
      simp only [assignOrdem, List.filter_cons, List.countP_cons, hb]
      simp only [Bool.false_eq_true, if_false, Nat.add_zero]
      rw [ih, countOf_bumpCount_ne m p.hash_linha hsh hp]

/-- Every finalized transaction of assignOrdem comes from an input
transaction with identical fields, and its duplicate flag is exactly
ordinal greater than one. -/
theorem assignOrdem_strip :
    ∀ (ps : List PreLanc) (m : List (String × Nat))
      (l : LancamentoBruto), l ∈ assignOrdem m ps →
        stripOrdem l ∈ ps ∧ l.is_duplicado = decide (1 < l.hash_ordem) := by
  intro ps
  induction ps with
  | nil => intro m l hl; cases hl
  | cons p rest ih =>
    intro m l hl
    unfold assignOrdem at hl
    rcases List.mem_cons.mp hl with he | ht
    · subst he
      exact ⟨List.mem_cons_self _ _, rfl⟩
    · rcases ih (bumpCount m p.hash_linha) l ht with ⟨h1, h2⟩
      exact ⟨List.mem_cons_of_mem p h1, h2⟩

end Financas

namespace Financas

/-- parse_lancamentos returns either the short-text empty list or the
sorted, ordinal-assigned output of the scan. -/
theorem parse_lancamentos_ok_cases (texto : String) (f : Date)
    (res : List LancamentoBruto) (h : parse_lancamentos texto f = .ok res) :
    res = [] ∨ ∃ pres, scanLines f (linhas_apos_ancora texto) [] none = .ok pres ∧
      res = sortByData (assignOrdem [] pres) := by
  unfold parse_lancamentos at h
  split at h
  · injection h with h1; exact Or.inl h1.symm
  · cases hs : scanLines f (linhas_apos_ancora texto) [] none with
    | error e => rw [hs] at h; exact Except.noConfusion h
    | ok pres =>
      rw [hs] at h
      injection h with h1
      exact Or.inr ⟨pres, rfl, h1.symm⟩

/-- C2: parse_lancamentos is deterministic (two invocations on the same
inputs agree), and every returned transaction's hash is the deterministic
hash function of its date, amount in minor units, description, city,
country and installment tag (normalization is applied inside
hash_linha). -/
theorem hash_determinism (texto : String) (f : Date)
    (res : List LancamentoBruto) (h : parse_lancamentos texto f = .ok res) :
    parse_lancamentos texto f = parse_lancamentos texto f ∧
      ∀ l ∈ res, l.hash_linha = hash_linha l.data.isoformat
        (valorCent l.valor) l.descricao (l.cidade.getD "")
        (l.pais.getD "") l.etiqueta_parcela := by
  refine ⟨rfl, ?_⟩
  intro l hl
  rcases parse_lancamentos_ok_cases texto f res h with hres | ⟨pres, hs, hres⟩
  · subst hres; cases hl
  · subst hres
    simp only [sortByData] at hl
    rw [List.mem_insertionSort] at hl
    obtain ⟨hmem, _⟩ := assignOrdem_strip pres [] l hl
    exact scanLines_hash f (linhas_apos_ancora texto) [] none pres hs
      (stripOrdem l) hmem

/-- C1: within one parse, the transactions sharing a hash value carry the
ordinals 1..N exactly (as a multiset: no gaps, no repeats, exactly one
ordinal 1), and the duplicate flag holds exactly for ordinals above 1. -/
theorem dedup_ordinais (texto : String) (f : Date)
    (res : List LancamentoBruto) (h : parse_lancamentos texto f = .ok res) :
    (∀ hsh : String,
      ((res.filter fun l => l.hash_linha == hsh).map
          fun l => l.hash_ordem).Perm
        (List.range' 1 ((res.filter fun l => l.hash_linha == hsh).length))) ∧
      ∀ l ∈ res, (l.is_duplicado = true ↔ 1 < l.hash_ordem) := by
  rcases parse_lancamentos_ok_cases texto f res h with hres | ⟨pres, hs, hres⟩
  · subst hres
    exact ⟨fun hsh => by simp, fun l hl => absurd hl (by simp)⟩
  · subst hres
    constructor
    · intro hsh
      have hperm : List.Perm (sortByData (assignOrdem [] pres))
          (assignOrdem [] pres) := by
        simp only [sortByData]
        exact List.perm_insertionSort _ _
      have hfil := hperm.filter (fun l => l.hash_linha == hsh)
      have hmap := hfil.map (fun l => l.hash_ordem)
      have heq := assignOrdem_filter pres [] hsh
      have hlen : ((assignOrdem [] pres).filter
          fun l => l.hash_linha == hsh).length =
          pres.countP fun p => p.hash_linha == hsh := by
        have := congrArg List.length heq
        simpa using this
      rw [heq] at hmap
      have hlen2 : ((sortByData (assignOrdem [] pres)).filter
          fun l => l.hash_linha == hsh).length =
          pres.countP fun p => p.hash_linha == hsh := by
        rw [hfil.length_eq, hlen]
      rw [hlen2]
      simpa [countOf] using hmap
    · intro l hl
      simp only [sortByData] at hl
      rw [List.mem_insertionSort] at hl
      obtain ⟨_, h2⟩ := assignOrdem_strip pres [] l hl
      rw [h2]
      simp

end Financas

namespace Financas

set_option maxRecDepth 100000 in
set_option maxHeartbeats 2000000 in
theorem hash_determinism_witness :
    parse_lancamentos
        "Lançamentos nesta fatura em folha de teste\n05/01 LOJA X R$ 10,00\n05/01 LOJA X R$ 10,00"
        ⟨2025, 1, 31⟩ =
      parse_lancamentos
        "Lançamentos nesta fatura em folha de teste\n05/01 LOJA X R$ 10,00\n05/01 LOJA X R$ 10,00"
        ⟨2025, 1, 31⟩ ∧
      ∀ l ∈ [(⟨⟨2025, 1, 5⟩, "LOJA X", none, none, none, ⟨1000, 2⟩, none,
          none, "", "c0a4086442c459e21a147e519d7aec4276464f4c", 1, false⟩ :
            LancamentoBruto),
          ⟨⟨2025, 1, 5⟩, "LOJA X", none, none, none, ⟨1000, 2⟩, none, none,
            "", "c0a4086442c459e21a147e519d7aec4276464f4c", 2, true⟩],
        l.hash_linha = hash_linha l.data.isoformat (valorCent l.valor)
          l.descricao (l.cidade.getD "") (l.pais.getD "")
          l.etiqueta_parcela :=
  hash_determinism
    "Lançamentos nesta fatura em folha de teste\n05/01 LOJA X R$ 10,00\n05/01 LOJA X R$ 10,00"
    ⟨2025, 1, 31⟩ _ (by rfl)

end Financas

namespace Financas

set_option maxRecDepth 100000 in
set_option maxHeartbeats 2000000 in
theorem dedup_ordinais_witness :
    (∀ hsh : String,
      (([(⟨⟨2025, 1, 5⟩, "LOJA X", none, none, none, ⟨1000, 2⟩, none,
          none, "", "c0a4086442c459e21a147e519d7aec4276464f4c", 1, false⟩ :
            LancamentoBruto),
          ⟨⟨2025, 1, 5⟩, "LOJA X", none, none, none, ⟨1000, 2⟩, none, none,
            "", "c0a4086442c459e21a147e519d7aec4276464f4c", 2,
            true⟩].filter fun l => l.hash_linha == hsh).map
          fun l => l.hash_ordem).Perm
        (List.range' 1
          (([(⟨⟨2025, 1, 5⟩, "LOJA X", none, none, none, ⟨1000, 2⟩, none,
            none, "", "c0a4086442c459e21a147e519d7aec4276464f4c", 1,
            false⟩ : LancamentoBruto),
            ⟨⟨2025, 1, 5⟩, "LOJA X", none, none, none, ⟨1000, 2⟩, none,
              none, "", "c0a4086442c459e21a147e519d7aec4276464f4c", 2,
              true⟩].filter fun l => l.hash_linha == hsh).length))) ∧
      ∀ l ∈ [(⟨⟨2025, 1, 5⟩, "LOJA X", none, none, none, ⟨1000, 2⟩, none,
          none, "", "c0a4086442c459e21a147e519d7aec4276464f4c", 1, false⟩ :
            LancamentoBruto),
          ⟨⟨2025, 1, 5⟩, "LOJA X", none, none, none, ⟨1000, 2⟩, none, none,
            "", "c0a4086442c459e21a147e519d7aec4276464f4c", 2, true⟩],
        (l.is_duplicado = true ↔ 1 < l.hash_ordem) :=
  dedup_ordinais
    "Lançamentos nesta fatura em folha de teste\n05/01 LOJA X R$ 10,00\n05/01 LOJA X R$ 10,00"
    ⟨2025, 1, 31⟩ _ (by rfl)

end Financas

namespace Financas

theorem dec_tol_self (d : Dec) :
    Dec.leb (Dec.absD (Dec.sub d d)) TOLERANCIA_VALOR_ABS = true := by
  simp [Dec.sub, Dec.absD, Dec.leb, TOLERANCIA_VALOR_ABS, decPow10]

theorem refDec_append (l : List Lanc) (y : Lanc) (h : l ≠ []) :
    refDec (l ++ [y]) = refDec l := by
  cases l with
  | nil => exact absurd rfl h
  | cons a rest => rfl

theorem splitGo_spec (rest : List Lanc) :
    ∀ (ref : Dec) (rsub : List Lanc),
      rsub ≠ [] →
      (∀ x ∈ rsub, Dec.leb (Dec.absD (Dec.sub (q2 x.valor) ref))
        TOLERANCIA_VALOR_ABS = true) →
      refDec rsub.reverse = ref →
      (splitGo ref rsub rest).flatten = rsub.reverse ++ rest ∧
        (∀ b ∈ splitGo ref rsub rest, b ≠ [] ∧ ∀ x ∈ b,
          Dec.leb (Dec.absD (Dec.sub (q2 x.valor) (refDec b)))
            TOLERANCIA_VALOR_ABS = true) ∧
        List.Chain' (fun b₁ b₂ =>
          Dec.leb (Dec.absD (Dec.sub (refDec b₂) (refDec b₁)))
            TOLERANCIA_VALOR_ABS = false) (splitGo ref rsub rest) ∧
        ∃ tl, (splitGo ref rsub rest).map refDec = ref :: tl := by
  induction rest with
  | nil =>
    intro ref rsub hne hin href
    refine ⟨by simp [splitGo], ?_, by simp [splitGo], [], by
      simp [splitGo, href]⟩
    intro b hb
    have hb1 : b = rsub.reverse := by simpa [splitGo] using hb
    subst hb1
    refine ⟨by simpa using hne, ?_⟩
    intro x hx
    rw [href]
    exact hin x (List.mem_reverse.mp hx)
  | cons it rest ih =>
    intro ref rsub hne hin href
    by_cases hcond : Dec.leb (Dec.absD (Dec.sub (q2 it.valor) ref))
        TOLERANCIA_VALOR_ABS = true
    · have hstep : splitGo ref rsub (it :: rest) =
          splitGo ref (it :: rsub) rest := by
        simp [splitGo, hcond]
      have hin2 : ∀ x ∈ it :: rsub,
          Dec.leb (Dec.absD (Dec.sub (q2 x.valor) ref))
            TOLERANCIA_VALOR_ABS = true := by
        intro x hx
        rcases List.mem_cons.mp hx with he | hm
        · subst he; exact hcond
        · exact hin x hm
      have href2 : refDec (it :: rsub).reverse = ref := by
        rw [List.reverse_cons, refDec_append _ _ (by simpa using hne)]
        exact href
      obtain ⟨hj, hq, hc, htl⟩ :=
        ih ref (it :: rsub) (by simp) hin2 href2
      rw [hstep]
      refine ⟨?_, hq, hc, htl⟩
      rw [hj, List.reverse_cons, List.append_assoc]
      rfl
    · have hstep : splitGo ref rsub (it :: rest) =
          rsub.reverse :: splitGo (q2 it.valor) [it] rest := by
        simp [splitGo, hcond]
      have hin1 : ∀ x ∈ [it],
          Dec.leb (Dec.absD (Dec.sub (q2 x.valor) (q2 it.valor)))
            TOLERANCIA_VALOR_ABS = true := by
        intro x hx
        have : x = it := List.mem_singleton.mp hx
        subst this
        exact dec_tol_self _
      obtain ⟨hj, hq, hc, tl2, htl2⟩ :=
        ih (q2 it.valor) [it] (by simp) hin1 (by simp [refDec])
      rw [hstep]
      constructor
      · rw [List.flatten_cons, hj]
        simp
      constructor
      · intro b hb
        rcases List.mem_cons.mp hb with he | hm
        · subst he
          refine ⟨by simpa using hne, ?_⟩
          intro x hx
          rw [href]
          exact hin x (List.mem_reverse.mp hx)
        · exact hq b hm
      constructor
      · cases hsp : splitGo (q2 it.valor) [it] rest with
        | nil => simp
        | cons b0 bs =>
          rw [hsp] at hc htl2
          have hb0 : refDec b0 = q2 it.valor := by
            simp only [List.map_cons] at htl2
            exact (List.cons.injEq _ _ _ _ ▸ htl2).1
          refine List.Chain'.cons ?_ hc
          rw [hb0, href]
          exact Bool.not_eq_true _ ▸ (by simpa using hcond)
      · exact ⟨(splitGo (q2 it.valor) [it] rest).map refDec, by
          simp [href]⟩

end Financas

namespace Financas

/-- C7: on the value-sorted bucket contents, the sub-bucket split of
agrupar_parcelados is exactly the greedy split against the first member's
quantized amount: sub-buckets concatenate back to the input, every member
is within 0.50 of its sub-bucket's first member (the reference, never
updated), and each sub-bucket's first member violates the tolerance
against the previous sub-bucket's reference (which is exactly when a new
sub-bucket is started). -/
theorem value_subbucket_reference (items : List Lanc) :
    (splitByValueTol
        (List.insertionSort (fun a b => valorQ2Le a b = true) items)).flatten =
      List.insertionSort (fun a b => valorQ2Le a b = true) items ∧
      (∀ b ∈ splitByValueTol
          (List.insertionSort (fun a b => valorQ2Le a b = true) items),
        b ≠ [] ∧ ∀ x ∈ b,
          Dec.leb (Dec.absD (Dec.sub (q2 x.valor) (refDec b)))
            TOLERANCIA_VALOR_ABS = true) ∧
      List.Chain' (fun b₁ b₂ =>
        Dec.leb (Dec.absD (Dec.sub (refDec b₂) (refDec b₁)))
          TOLERANCIA_VALOR_ABS = false)
        (splitByValueTol
          (List.insertionSort (fun a b => valorQ2Le a b = true) items)) := by
  cases hs : List.insertionSort (fun a b => valorQ2Le a b = true) items with
  | nil => exact ⟨rfl, fun b hb => absurd hb (by simp [splitByValueTol]),
      by simp [splitByValueTol]⟩
  | cons x rest =>
    have hin1 : ∀ y ∈ [x],
        Dec.leb (Dec.absD (Dec.sub (q2 y.valor) (q2 x.valor)))
          TOLERANCIA_VALOR_ABS = true := by
      intro y hy
      have : y = x := List.mem_singleton.mp hy
      subst this
      exact dec_tol_self _
    obtain ⟨hj, hq, hc, _⟩ :=
      splitGo_spec rest (q2 x.valor) [x] (by simp) hin1 (by simp [refDec])
    have hsplit : splitByValueTol (x :: rest) = splitGo (q2 x.valor) [x] rest :=
      rfl
    rw [hsplit]
    refine ⟨?_, hq, hc⟩
    rw [hj]
    simp

end Financas

namespace Financas

theorem date_ltb_trans {a b c : Date} (h1 : a.ltb b = true)
    (h2 : b.ltb c = true) : a.ltb c = true := by
  rcases a with ⟨y1, m1, d1⟩
  rcases b with ⟨y2, m2, d2⟩
  rcases c with ⟨y3, m3, d3⟩
  simp only [Date.ltb, Bool.or_eq_true, Bool.and_eq_true,
    decide_eq_true_eq] at *
  omega

theorem date_ltb_conn {a b : Date} (h1 : a.ltb b = false)
    (h2 : b.ltb a = false) : a = b := by
  rcases a with ⟨y1, m1, d1⟩
  rcases b with ⟨y2, m2, d2⟩
  rw [Bool.eq_false_iff] at h1 h2
  simp only [Date.ltb, Bool.or_eq_true, Bool.and_eq_true,
    decide_eq_true_eq, ne_eq, not_or, not_and, not_lt] at h1 h2
  simp only [Date.mk.injEq]
  omega

theorem pyStrLeChars_total (a : List Char) :
    ∀ b, pyStrLeChars a b = true ∨ pyStrLeChars b a = true := by
  induction a with
  | nil => intro b; left; cases b <;> rfl
  | cons x as ih =>
    intro b
    cases b with
    | nil => right; rfl
    | cons y bs =>
      by_cases h1 : x.val.toNat < y.val.toNat
      · left; simp [pyStrLeChars, h1]
      · by_cases h2 : y.val.toNat < x.val.toNat
        · right; simp [pyStrLeChars, h1, h2]
        · rcases ih bs with h | h
          · left; simp [pyStrLeChars, h1, h2, h]
          · right; simp [pyStrLeChars, h1, h2, h]

theorem pyStrLeChars_trans :
    ∀ (a b c : List Char), pyStrLeChars a b = true →
      pyStrLeChars b c = true → pyStrLeChars a c = true := by
  intro a
  induction a with
  | nil => intro b c _ _; cases c <;> rfl
  | cons x as ih =>
    intro b c h1 h2
    cases b with
    | nil => exact absurd h1 (by simp [pyStrLeChars])
    | cons y bs =>
      cases c with
      | nil => exact absurd h2 (by simp [pyStrLeChars])
      | cons z cs =>
        simp only [pyStrLeChars] at h1 h2 ⊢
        by_cases hxy : x.val.toNat < y.val.toNat
        · by_cases hyz : y.val.toNat < z.val.toNat
          · simp [show x.val.toNat < z.val.toNat by omega]
          · by_cases hzy : z.val.toNat < y.val.toNat
            · simp [hyz, hzy] at h2
            · simp [show x.val.toNat < z.val.toNat by omega]
        · by_cases hyx : y.val.toNat < x.val.toNat
          · simp [hxy, hyx] at h1
          · by_cases hyz : y.val.toNat < z.val.toNat
            · simp [show x.val.toNat < z.val.toNat by omega]
            · by_cases hzy : z.val.toNat < y.val.toNat
              · simp [hyz, hzy] at h2
              · have hxz : ¬x.val.toNat < z.val.toNat := by omega
                have hzx : ¬z.val.toNat < x.val.toNat := by omega
                simp only [if_neg hxz, if_neg hzx]
                simp only [if_neg hxy, if_neg hyx] at h1
                simp only [if_neg hyz, if_neg hzy] at h2
                exact ih bs cs h1 h2

theorem grupoRevLe_total (a b : GrupoParcelado) :
    grupoRevLe a b = true ∨ grupoRevLe b a = true := by
  unfold grupoRevLe
  cases hab : Date.ltb b.data_compra a.data_compra with
  | true => left; simp [hab]
  | false =>
    cases hba : Date.ltb a.data_compra b.data_compra with
    | true => right; simp [hba]
    | false =>
      have he := date_ltb_conn hba hab
      rcases pyStrLeChars_total b.desc_base.data a.desc_base.data with hd | hd
      · left; simp [hab, he, pyStrLe, hd]
      · right; simp [hba, he.symm, pyStrLe, hd]

theorem grupoRevLe_trans {a b c : GrupoParcelado}
    (h1 : grupoRevLe a b = true) (h2 : grupoRevLe b c = true) :
    grupoRevLe a c = true := by
  unfold grupoRevLe at *
  simp only [Bool.or_eq_true, Bool.and_eq_true, decide_eq_true_eq] at *
  rcases h1 with h1 | ⟨h1e, h1d⟩
  · rcases h2 with h2 | ⟨h2e, h2d⟩
    · exact Or.inl (date_ltb_trans h2 h1)
    · exact Or.inl (h2e ▸ h1)
  · rcases h2 with h2 | ⟨h2e, h2d⟩
    · exact Or.inl (h1e ▸ h2)
    · exact Or.inr ⟨h2e.trans h1e,
        pyStrLeChars_trans _ _ _ h2d h1d⟩

set_option maxRecDepth 100000 in
set_option maxHeartbeats 4000000 in
/-- C8 counterexample: two groups with the same purchase date come out
ordered by description descending (BBB before AAA), not ascending as the
claim states. -/
theorem agrupar_ordering_cex :
    ((agrupar_parcelados
      [⟨1, ⟨2024, 1, 10⟩, "AAA PARCELA", ⟨1000, 2⟩, "", none, some 1⟩,
        ⟨2, ⟨2024, 2, 9⟩, "AAA PARCELA", ⟨1000, 2⟩, "", none, some 1⟩,
        ⟨3, ⟨2024, 1, 10⟩, "BBB PARCELA", ⟨2000, 2⟩, "", none, some 1⟩,
        ⟨4, ⟨2024, 2, 9⟩, "BBB PARCELA", ⟨2000, 2⟩, "", none, some 1⟩]).map
        fun g => g.desc_base) = ["BBB", "AAA"] ∧
      ((agrupar_parcelados
        [⟨1, ⟨2024, 1, 10⟩, "AAA PARCELA", ⟨1000, 2⟩, "", none, some 1⟩,
          ⟨2, ⟨2024, 2, 9⟩, "AAA PARCELA", ⟨1000, 2⟩, "", none, some 1⟩,
          ⟨3, ⟨2024, 1, 10⟩, "BBB PARCELA", ⟨2000, 2⟩, "", none, some 1⟩,
          ⟨4, ⟨2024, 2, 9⟩, "BBB PARCELA", ⟨2000, 2⟩, "", none, some 1⟩]).map
          fun g => g.data_compra) = [⟨2024, 1, 10⟩, ⟨2024, 1, 10⟩] := by
  constructor
  · decide
  · decide

/-- C8 amended: the returned groups are sorted by purchase date
descending, with equal purchase dates ordered by normalized description
descending (list.sort with reverse=True reverses the whole key
comparison, including the description component). -/
theorem agrupar_result_ordering (itens : List Lanc) :
    List.Sorted (fun g₁ g₂ : GrupoParcelado =>
      g₂.data_compra.ltb g₁.data_compra = true ∨
        (g₂.data_compra = g₁.data_compra ∧
          pyStrLe g₂.desc_base g₁.desc_base = true))
      (agrupar_parcelados itens) := by
  have hi : IsTotal GrupoParcelado (fun a b => grupoRevLe a b = true) :=
    ⟨grupoRevLe_total⟩
  have ht : IsTrans GrupoParcelado (fun a b => grupoRevLe a b = true) :=
    ⟨fun _ _ _ => grupoRevLe_trans⟩
  have hs := @List.sorted_insertionSort GrupoParcelado
    (fun a b => grupoRevLe a b = true) (fun a b => instDecidableEqBool _ _)
    hi ht (gruposNaoOrdenados itens)
  refine List.Pairwise.imp ?_ hs
  intro a b hab
  simp only [grupoRevLe, Bool.or_eq_true, Bool.and_eq_true,
    decide_eq_true_eq] at hab
  exact hab

end Financas

namespace Financas

theorem date_ltb_total (a b : Date) :
    a.ltb b = true ∨ b.ltb a = true ∨ a = b := by
  rcases a with ⟨y1, m1, d1⟩
  rcases b with ⟨y2, m2, d2⟩
  simp only [Date.ltb, Bool.or_eq_true, Bool.and_eq_true,
    decide_eq_true_eq, Date.mk.injEq]
  omega

theorem date_leb_trans {a b c : Date} (h1 : a.leb b = true)
    (h2 : b.leb c = true) : a.leb c = true := by
  simp only [Date.leb, Bool.or_eq_true, decide_eq_true_eq] at *
  rcases h1 with h1 | h1
  · rcases h2 with h2 | h2
    · exact Or.inl (date_ltb_trans h1 h2)
    · exact Or.inl (h2 ▸ h1)
  · rcases h2 with h2 | h2
    · exact Or.inl (h1 ▸ h2)
    · exact Or.inr (h1.trans h2)

theorem date_leb_refl (a : Date) : a.leb a = true := by
  simp [Date.leb]

theorem date_leb_of_not_ltb {a b : Date} (h : b.ltb a = false) :
    a.leb b = true := by
  simp only [Date.leb, Bool.or_eq_true, decide_eq_true_eq]
  rcases date_ltb_total a b with h1 | h1 | h1
  · exact Or.inl h1
  · rw [h1] at h; exact Bool.noConfusion h
  · exact Or.inr h1

theorem minData_le : ∀ (l : List Date) (acc : Date),
    (minData l acc).leb acc = true ∧
      ∀ d ∈ l, (minData l acc).leb d = true := by
  intro l
  induction l with
  | nil => intro acc; exact ⟨date_leb_refl acc, fun d hd => absurd hd (by simp)⟩
  | cons d rest ih =>
    intro acc
    simp only [minData]
    by_cases h : d.ltb acc = true
    · rw [if_pos h]
      obtain ⟨h1, h2⟩ := ih d
      have hda : d.leb acc = true := by
        simp [Date.leb, h]
      refine ⟨date_leb_trans h1 hda, ?_⟩
      intro x hx
      rcases List.mem_cons.mp hx with he | hm
      · subst he; exact h1
      · exact h2 x hm
    · rw [if_neg h]
      obtain ⟨h1, h2⟩ := ih acc
      refine ⟨h1, ?_⟩
      intro x hx
      rcases List.mem_cons.mp hx with he | hm
      · subst he
        exact date_leb_trans h1
          (date_leb_of_not_ltb (Bool.not_eq_true _ ▸ h))
      · exact h2 x hm

theorem minData_mem : ∀ (l : List Date) (acc : Date),
    minData l acc = acc ∨ minData l acc ∈ l := by
  intro l
  induction l with
  | nil => intro acc; exact Or.inl rfl
  | cons d rest ih =>
    intro acc
    simp only [minData]
    by_cases h : d.ltb acc = true
    · rw [if_pos h]
      rcases ih d with h1 | h1
      · exact Or.inr (by rw [h1]; exact List.mem_cons_self _ _)
      · exact Or.inr (List.mem_cons_of_mem _ h1)
    · rw [if_neg h]
      rcases ih acc with h1 | h1
      · exact Or.inl h1
      · exact Or.inr (List.mem_cons_of_mem _ h1)

/-- Every chain the walk emits has at least two members and consecutive
members one month apart. -/
theorem chainWalk_spec :
    ∀ (rest rchain : List Lanc) (last : Lanc),
      List.Chain' (fun a b => is_next_month b.data a.data = true)
        (last :: rchain) →
      ∀ ch ∈ chainWalk rchain last rest,
        2 ≤ ch.length ∧
          List.Chain' (fun a b => is_next_month a.data b.data = true) ch := by
  intro rest
  induction rest with
  | nil =>
    intro rchain last hchain ch hch
    unfold chainWalk at hch
    split at hch
    · have he : ch = (last :: rchain).reverse := List.mem_singleton.mp hch
      subst he
      constructor
      · simpa using (by assumption : 2 ≤ (last :: rchain).length)
      · exact (List.chain'_reverse).mpr hchain
    · cases hch
  | cons it rest ih =>
    intro rchain last hchain ch hch
    unfold chainWalk at hch
    split at hch
    · exact ih (last :: rchain) it
        (List.Chain'.cons (by assumption) hchain) ch hch
    · rcases List.mem_append.mp hch with hm | hm
      · split at hm
        · have he : ch = (last :: rchain).reverse := List.mem_singleton.mp hm
          subst he
          constructor
          · simpa using (by assumption : 2 ≤ (last :: rchain).length)
          · exact (List.chain'_reverse).mpr hchain
        · cases hm
      · exact ih [] it (List.chain'_singleton it) ch hm

/-- Every chain of _chain_by_month_and_value has at least two members and
consecutive members one month apart. -/
theorem chain_by_month_spec (items : List Lanc) :
    ∀ ch ∈ chain_by_month_and_value items,
      2 ≤ ch.length ∧
        List.Chain' (fun a b => is_next_month a.data b.data = true) ch := by
  unfold chain_by_month_and_value
  split
  · intro ch hch; cases hch
  · intro ch hch
    exact chainWalk_spec _ [] _ (List.chain'_singleton _) ch hch

end Financas

namespace Financas

/-- The fields of a synthesized group: member count, member ids, purchase
date is the earliest member date. -/
theorem mkGrupo_fields (cid : Option Nat) (desc : String)
    (ptot : Option Nat) (ch : List Lanc) (g : GrupoParcelado)
    (h : mkGrupo cid desc ptot ch = some g) :
    g.qtd_parcelas = ch.length ∧
      g.lancamento_ids = ch.map (fun x => x.id) ∧
      g.data_compra ∈ ch.map (fun x => x.data) ∧
      ∀ x ∈ ch, g.data_compra.leb x.data = true := by
  unfold mkGrupo at h
  split at h
  · exact Option.noConfusion h
  · rename_i hlen
    cases ch with
    | nil => exact absurd (by simp) hlen
    | cons x rest =>
      injection h with h1
      subst h1
      refine ⟨rfl, rfl, ?_, ?_⟩
      · show minData (rest.map fun y => y.data) x.data ∈ _
        rcases minData_mem (rest.map fun y => y.data) x.data with h1 | h1
        · rw [h1]; exact List.mem_cons_self _ _
        · exact List.mem_cons_of_mem _ h1
      · intro y hy
        show (minData (rest.map fun z => z.data) x.data).leb y.data = true
        obtain ⟨h1, h2⟩ := minData_le (rest.map fun z => z.data) x.data
        rcases List.mem_cons.mp hy with he | hm
        · subst he; exact h1
        · exact h2 y.data (List.mem_map_of_mem _ hm)

/-- C5: every group agrupar_parcelados returns has at least two members,
its purchase date is the earliest member date, and its member list (in
chain order, which is date order) steps by 20 to 38 days between
consecutive members; single-member chains are never emitted. -/
theorem installment_group_invariant (itens : List Lanc)
    (g : GrupoParcelado) (hg : g ∈ agrupar_parcelados itens) :
    2 ≤ g.qtd_parcelas ∧
      ∃ ch : List Lanc,
        g.lancamento_ids = ch.map (fun x => x.id) ∧
        g.qtd_parcelas = ch.length ∧
        g.data_compra ∈ ch.map (fun x => x.data) ∧
        (∀ x ∈ ch, g.data_compra.leb x.data = true) ∧
        List.Chain' (fun a b => is_next_month a.data b.data = true) ch := by
  unfold agrupar_parcelados at hg
  rw [List.mem_insertionSort] at hg
  unfold gruposNaoOrdenados at hg
  rw [List.mem_flatMap] at hg
  obtain ⟨⟨k, items_bucket⟩, _, hg2⟩ := hg
  rw [List.mem_flatMap] at hg2
  obtain ⟨sub, _, hg3⟩ := hg2
  rw [List.mem_filterMap] at hg3
  obtain ⟨ch, hch, hmk⟩ := hg3
  obtain ⟨hlen, hchain⟩ := chain_by_month_spec sub ch hch
  obtain ⟨hq, hids, hmem, hle⟩ := mkGrupo_fields k.1 k.2.1 k.2.2 ch g hmk
  exact ⟨hq ▸ hlen, ch, hids, hq, hmem, hle, hchain⟩

end Financas

namespace Financas

set_option maxRecDepth 100000 in
set_option maxHeartbeats 4000000 in
theorem installment_group_invariant_witness :
    2 ≤ (⟨"a972cf4133c5766a", ⟨2024, 1, 10⟩, "AAA", none, ⟨1000, 2⟩,
        ⟨2000, 2⟩, 2, [1, 2]⟩ : GrupoParcelado).qtd_parcelas ∧
      ∃ ch : List Lanc,
        (⟨"a972cf4133c5766a", ⟨2024, 1, 10⟩, "AAA", none, ⟨1000, 2⟩,
          ⟨2000, 2⟩, 2, [1, 2]⟩ : GrupoParcelado).lancamento_ids =
            ch.map (fun x => x.id) ∧
        (⟨"a972cf4133c5766a", ⟨2024, 1, 10⟩, "AAA", none, ⟨1000, 2⟩,
          ⟨2000, 2⟩, 2, [1, 2]⟩ : GrupoParcelado).qtd_parcelas = ch.length ∧
        (⟨"a972cf4133c5766a", ⟨2024, 1, 10⟩, "AAA", none, ⟨1000, 2⟩,
          ⟨2000, 2⟩, 2, [1, 2]⟩ : GrupoParcelado).data_compra ∈
            ch.map (fun x => x.data) ∧
        (∀ x ∈ ch,
          (⟨"a972cf4133c5766a", ⟨2024, 1, 10⟩, "AAA", none, ⟨1000, 2⟩,
            ⟨2000, 2⟩, 2, [1, 2]⟩ :
              GrupoParcelado).data_compra.leb x.data = true) ∧
        List.Chain' (fun a b => is_next_month a.data b.data = true) ch :=
  installment_group_invariant
    [⟨1, ⟨2024, 1, 10⟩, "AAA PARCELA", ⟨1000, 2⟩, "", none, some 1⟩,
      ⟨2, ⟨2024, 2, 9⟩, "AAA PARCELA", ⟨1000, 2⟩, "", none, some 1⟩]
    ⟨"a972cf4133c5766a", ⟨2024, 1, 10⟩, "AAA", none, ⟨1000, 2⟩,
      ⟨2000, 2⟩, 2, [1, 2]⟩ (by decide)

end Financas

namespace Financas

set_option maxRecDepth 100000 in
set_option maxHeartbeats 4000000 in
/-- C3 counterexample: a text long enough in which the close-date, due-date
and card-tail patterns all match still raises, because the matched close
date 31/02/2025 is not a valid calendar date (datetime.strptime raises
ValueError). -/
theorem parse_dados_fatura_raises_cex :
    isErr (parse_dados_fatura
      "Fatura fechada em 31/02/2025 Vencimento 10/03/2025 Cartão Final 1234") =
        true ∧
      30 ≤ (pyStrip
        "Fatura fechada em 31/02/2025 Vencimento 10/03/2025 Cartão Final 1234").length ∧
      (fechSearch none
        "Fatura fechada em 31/02/2025 Vencimento 10/03/2025 Cartão Final 1234".data).isSome =
          true ∧
      (vencSearch none
        "Fatura fechada em 31/02/2025 Vencimento 10/03/2025 Cartão Final 1234".data).isSome =
          true ∧
      (finalSearch none
        "Fatura fechada em 31/02/2025 Vencimento 10/03/2025 Cartão Final 1234".data).isSome =
          true := by
  refine ⟨by decide, by decide, by decide, by decide, by decide⟩

end Financas

namespace Financas

/-- C3 amended: parse_dados_fatura raises exactly when the text is empty
or under 30 stripped characters, or one of the close-date, due-date or
card-tail patterns has no match, or a matched close/due date token is not
a valid calendar date, or the total captured after the anchor is not a
well-formed decimal; in the failure case no header is returned (the result
is an error value), and the missing-fields error carries the keyword-line
preview message. -/
theorem parse_dados_fatura_raises_iff (texto : String) :
    (isErr (parse_dados_fatura texto) = true ↔
      ((texto = "" ∨ (pyStrip texto).length < 30) ∨
        (fechSearch none texto.data).isNone = true ∨
        (vencSearch none texto.data).isNone = true ∨
        (finalSearch none texto.data).isNone = true ∨
        (∃ s, fechSearch none texto.data = some s ∧ parseDateStr s = none) ∨
        (∃ s, vencSearch none texto.data = some s ∧ parseDateStr s = none) ∨
        (∃ g, totalSearch none (regiaoTotal texto).data = some g ∧
          parse_decimal_br ⟨g⟩ = none))) ∧
      (¬(texto = "" ∨ (pyStrip texto).length < 30) →
        ((fechSearch none texto.data).isNone = true ∨
          (vencSearch none texto.data).isNone = true ∨
          (finalSearch none texto.data).isNone = true) →
        parse_dados_fatura texto =
          .error (.dadosNaoEncontrados (msgDadosNaoEncontrados texto))) := by
  have hemp : ∀ s : String, s.isEmpty = true → s = "" := by
    intro s hs
    cases s with
    | mk data =>
      cases data with
      | nil => rfl
      | cons c cs =>
        exfalso
        simp only [String.isEmpty, String.endPos, String.utf8ByteSize,
          beq_iff_eq] at hs
        have h2 := congrArg String.Pos.byteIdx hs
        simp [String.utf8ByteSize.go] at h2
        have h3 := Char.utf8Size_pos c
        omega
  by_cases hshort : (texto.isEmpty || decide ((pyStrip texto).length < 30)) = true
  · have hs : texto = "" ∨ (pyStrip texto).length < 30 := by
      rcases Bool.or_eq_true_iff.mp hshort with h | h
      · exact Or.inl (hemp texto h)
      · exact Or.inr (of_decide_eq_true h)
    constructor
    · refine iff_of_true ?_ (Or.inl hs)
      unfold parse_dados_fatura
      rw [if_pos hshort]
      rfl
    · intro hcon
      exact absurd hs hcon
  · have hlong : ¬(texto = "" ∨ (pyStrip texto).length < 30) := by
      intro hc
      apply hshort
      rcases hc with hc | hc
      · subst hc; rfl
      · simp [hc]
    cases hf : fechSearch none texto.data with
    | none =>
      constructor
      · refine iff_of_true ?_ (Or.inr (Or.inl (by simp)))
        unfold parse_dados_fatura
        rw [if_neg hshort, hf]
        rfl
      · intro _ _
        unfold parse_dados_fatura
        rw [if_neg hshort, hf]
    | some fs =>
      cases hv : vencSearch none texto.data with
      | none =>
        constructor
        · refine iff_of_true ?_ (Or.inr (Or.inr (Or.inl (by simp))))
          unfold parse_dados_fatura
          rw [if_neg hshort, hf, hv]
          rfl
        · intro _ _
          unfold parse_dados_fatura
          rw [if_neg hshort, hf, hv]
      | some vs =>
        cases hfin : finalSearch none texto.data with
        | none =>
          constructor
          · refine iff_of_true ?_
              (Or.inr (Or.inr (Or.inr (Or.inl (by simp)))))
            unfold parse_dados_fatura
            rw [if_neg hshort, hf, hv, hfin]
            rfl
          · intro _ _
            unfold parse_dados_fatura
            rw [if_neg hshort, hf, hv, hfin]
        | some cf =>
          refine ⟨?_, fun _ hmiss => absurd hmiss (by simp)⟩
          cases hd1 : parseDateStr fs with
          | none =>
            refine iff_of_true ?_
              (Or.inr (Or.inr (Or.inr (Or.inr (Or.inl ⟨fs, rfl, hd1⟩)))))
            unfold parse_dados_fatura
            rw [if_neg hshort]
            simp only [hf, hv, hfin, hd1]
            rfl
          | some d1 =>
            cases hd2 : parseDateStr vs with
            | none =>
              refine iff_of_true ?_
                (Or.inr (Or.inr (Or.inr (Or.inr (Or.inr (Or.inl
                  ⟨vs, rfl, hd2⟩))))))
              unfold parse_dados_fatura
              rw [if_neg hshort]
              simp only [hf, hv, hfin, hd1, hd2]
              rfl
            | some d2 =>
              cases ha : texto_apos_ancora texto with
              | none =>
                have hreg : regiaoTotal texto = texto := by
                  unfold regiaoTotal
                  rw [ha]
                  rfl
                cases ht : totalSearch none texto.data with
                | some gt =>
                  cases hp : parse_decimal_br ⟨gt⟩ with
                  | none =>
                    refine iff_of_true ?_
                      (Or.inr (Or.inr (Or.inr (Or.inr (Or.inr (Or.inr
                        ⟨gt, by rw [hreg]; exact ht, hp⟩))))))
                    unfold parse_dados_fatura
                    rw [if_neg hshort]
                    simp only [hf, hv, hfin, hd1, hd2, ha, ht, hp]
                    rfl
                  | some dt =>
                    refine iff_of_false ?_ ?_
                    · unfold parse_dados_fatura
                      rw [if_neg hshort]
                      simp only [hf, hv, hfin, hd1, hd2, ha, ht, hp]
                      simp [isErr]
                    · rintro (hc | hc | hc | hc | ⟨s, hs1, hs2⟩ |
                        ⟨s, hs1, hs2⟩ | ⟨gg, hg1, hg2⟩)
                      · exact hlong hc
                      · simp at hc
                      · simp at hc
                      · simp at hc
                      · injection hs1 with hs1
                        subst hs1
                        rw [hd1] at hs2
                        exact Option.noConfusion hs2
                      · injection hs1 with hs1
                        subst hs1
                        rw [hd2] at hs2
                        exact Option.noConfusion hs2
                      · rw [hreg, ht] at hg1
                        injection hg1 with hg1
                        subst hg1
                        rw [hp] at hg2
                        exact Option.noConfusion hg2
                | none =>
                  refine iff_of_false ?_ ?_
                  · unfold parse_dados_fatura
                    rw [if_neg hshort]
                    simp only [hf, hv, hfin, hd1, hd2, ha, ht]
                    simp [isErr]
                  · rintro (hc | hc | hc | hc | ⟨s, hs1, hs2⟩ |
                      ⟨s, hs1, hs2⟩ | ⟨gg, hg1, hg2⟩)
                    · exact hlong hc
                    · simp at hc
                    · simp at hc
                    · simp at hc
                    · injection hs1 with hs1
                      subst hs1
                      rw [hd1] at hs2
                      exact Option.noConfusion hs2
                    · injection hs1 with hs1
                      subst hs1
                      rw [hd2] at hs2
                      exact Option.noConfusion hs2
                    · rw [hreg, ht] at hg1
                      exact Option.noConfusion hg1
              | some pos =>
                have hreg : regiaoTotal texto = pos := by
                  unfold regiaoTotal
                  rw [ha]
                  rfl
                cases ht : totalSearch none pos.data with
                | some gt =>
                  cases hp : parse_decimal_br ⟨gt⟩ with
                  | none =>
                    refine iff_of_true ?_
                      (Or.inr (Or.inr (Or.inr (Or.inr (Or.inr (Or.inr
                        ⟨gt, by rw [hreg]; exact ht, hp⟩))))))
                    unfold parse_dados_fatura
                    rw [if_neg hshort]
                    simp only [hf, hv, hfin, hd1, hd2, ha, ht, hp]
                    rfl
                  | some dt =>
                    refine iff_of_false ?_ ?_
                    · unfold parse_dados_fatura
                      rw [if_neg hshort]
                      simp only [hf, hv, hfin, hd1, hd2, ha, ht, hp]
                      simp [isErr]
                    · rintro (hc | hc | hc | hc | ⟨s, hs1, hs2⟩ |
                        ⟨s, hs1, hs2⟩ | ⟨gg, hg1, hg2⟩)
                      · exact hlong hc
                      · simp at hc
                      · simp at hc
                      · simp at hc
                      · injection hs1 with hs1
                        subst hs1
                        rw [hd1] at hs2
                        exact Option.noConfusion hs2
                      · injection hs1 with hs1
                        subst hs1
                        rw [hd2] at hs2
                        exact Option.noConfusion hs2
                      · rw [hreg, ht] at hg1
                        injection hg1 with hg1
                        subst hg1
                        rw [hp] at hg2
                        exact Option.noConfusion hg2
                | none =>
                  refine iff_of_false ?_ ?_
                  · unfold parse_dados_fatura
                    rw [if_neg hshort]
                    simp only [hf, hv, hfin, hd1, hd2, ha, ht]
                    simp [isErr]
                  · rintro (hc | hc | hc | hc | ⟨s, hs1, hs2⟩ |
                      ⟨s, hs1, hs2⟩ | ⟨gg, hg1, hg2⟩)
                    · exact hlong hc
                    · simp at hc
                    · simp at hc
                    · simp at hc
                    · injection hs1 with hs1
                      subst hs1
                      rw [hd1] at hs2
                      exact Option.noConfusion hs2
                    · injection hs1 with hs1
                      subst hs1
                      rw [hd2] at hs2
                      exact Option.noConfusion hs2
                    · rw [hreg, ht] at hg1
                      exact Option.noConfusion hg1

end Financas

namespace Financas

theorem venc_obs_ne_anchor (x : String) :
    ("Vencimento (" ++ x) ≠
      "Âncora 'Lançamentos nesta fatura' não encontrada; total buscado no texto inteiro." := by
  intro he
  have h2 := congrArg (fun s : String => s.data.head?) he
  dsimp only at h2
  have hl : ("Vencimento (" ++ x).data.head? = some 'V' := rfl
  rw [hl] at h2
  exact absurd h2 (by decide)

theorem venc_obs_ne_total (x : String) :
    ("Vencimento (" ++ x) ≠
      "Total da Fatura (após a âncora) não encontrado no PDF." := by
  intro he
  have h2 := congrArg (fun s : String => s.data.head?) he
  dsimp only at h2
  have hl : ("Vencimento (" ++ x).data.head? = some 'V' := rfl
  rw [hl] at h2
  exact absurd h2 (by decide)

/-- The observation list of the brand extractor is one of three known
values. -/
theorem extrair_bandeira_obs (texto : String) :
    (extrair_bandeira texto).2 = [] ∨
      (extrair_bandeira texto).2 =
        ["Bandeira detectada fora do cabeçalho OUROCARD; verifique se está correta."] ∨
      (extrair_bandeira texto).2 = ["Bandeira do cartão não detectada no PDF."] := by
  unfold extrair_bandeira
  cases bandeiraOuroSearch none texto.data with
  | some b => exact Or.inl rfl
  | none =>
    cases bandeiraGenericSearch none texto.data with
    | some b => exact Or.inr (Or.inl rfl)
    | none => exact Or.inr (Or.inr rfl)

end Financas

namespace Financas

theorem ne_anchor_of_headV (x : String) (hx : x.data.head? = some 'V') :
    x ≠ "Âncora 'Lançamentos nesta fatura' não encontrada; total buscado no texto inteiro." := by
  intro he
  subst he
  exact absurd hx (by decide)

theorem ne_total_of_headV (x : String) (hx : x.data.head? = some 'V') :
    x ≠ "Total da Fatura (após a âncora) não encontrado no PDF." := by
  intro he
  subst he
  exact absurd hx (by decide)

/-- When the header fields are present and valid and no total matches in
the search region, parsing succeeds with an absent total. -/
theorem missing_total_not_fatal (texto fs vs cf : String) (d1 d2 : Date)
    (hshort : (texto.isEmpty || decide ((pyStrip texto).length < 30)) = false)
    (hf : fechSearch none texto.data = some fs)
    (hv : vencSearch none texto.data = some vs)
    (hfin : finalSearch none texto.data = some cf)
    (hd1 : parseDateStr fs = some d1) (hd2 : parseDateStr vs = some d2)
    (ht : totalSearch none (regiaoTotal texto).data = none) :
    ∃ h, parse_dados_fatura texto = .ok h ∧ h.total = none := by
  unfold parse_dados_fatura
  rw [if_neg (by simp [hshort])]
  cases ha : texto_apos_ancora texto with
  | none =>
    have hreg : regiaoTotal texto = texto := by
      unfold regiaoTotal
      rw [ha]
      rfl
    rw [hreg] at ht
    simp only [hf, hv, hfin, hd1, hd2, ha, ht]
    exact ⟨_, rfl, rfl⟩
  | some pos =>
    have hreg : regiaoTotal texto = pos := by
      unfold regiaoTotal
      rw [ha]
      rfl
    rw [hreg] at ht
    simp only [hf, hv, hfin, hd1, hd2, ha, ht]
    exact ⟨_, rfl, rfl⟩

end Financas

namespace Financas

/-- The venc-before-close observation never equals the anchor or total
observation, and the brand observations never equal them either: the
anchor-missing message cannot appear in the base observation list. -/
theorem c6_no_anchor_msg (d1 d2 : Date) (obsB : List String)
    (hobs : obsB = [] ∨
      obsB = ["Bandeira detectada fora do cabeçalho OUROCARD; verifique se está correta."] ∨
      obsB = ["Bandeira do cartão não detectada no PDF."]) :
    "Âncora 'Lançamentos nesta fatura' não encontrada; total buscado no texto inteiro." ∉
      (if d2.ltb d1 = true then
        ["Vencimento (" ++ dateBR d2 ++ ") anterior ao fechamento (" ++
          dateBR d1 ++ "). Verificar PDF."] else []) ++ obsB := by
  intro hc
  rcases List.mem_append.mp hc with hc | hc
  · by_cases hlt : (d2.ltb d1) = true
    · rw [if_pos hlt] at hc
      exact (venc_obs_ne_anchor _) (List.mem_singleton.mp hc).symm
    · rw [if_neg hlt] at hc
      exact List.not_mem_nil _ hc
  · rcases hobs with h0 | h0 | h0
    · rw [h0] at hc
      exact List.not_mem_nil _ hc
    · rw [h0] at hc
      exact absurd (List.mem_singleton.mp hc) (by decide)
    · rw [h0] at hc
      exact absurd (List.mem_singleton.mp hc) (by decide)

/-- The total-missing message cannot appear in the base observation
list. -/
theorem c6_no_total_msg (d1 d2 : Date) (obsB : List String)
    (hobs : obsB = [] ∨
      obsB = ["Bandeira detectada fora do cabeçalho OUROCARD; verifique se está correta."] ∨
      obsB = ["Bandeira do cartão não detectada no PDF."]) :
    "Total da Fatura (após a âncora) não encontrado no PDF." ∉
      (if d2.ltb d1 = true then
        ["Vencimento (" ++ dateBR d2 ++ ") anterior ao fechamento (" ++
          dateBR d1 ++ "). Verificar PDF."] else []) ++ obsB := by
  intro hc
  rcases List.mem_append.mp hc with hc | hc
  · by_cases hlt : (d2.ltb d1) = true
    · rw [if_pos hlt] at hc
      exact (venc_obs_ne_total _) (List.mem_singleton.mp hc).symm
    · rw [if_neg hlt] at hc
      exact List.not_mem_nil _ hc
  · rcases hobs with h0 | h0 | h0
    · rw [h0] at hc
      exact List.not_mem_nil _ hc
    · rw [h0] at hc
      exact absurd (List.mem_singleton.mp hc) (by decide)
    · rw [h0] at hc
      exact absurd (List.mem_singleton.mp hc) (by decide)

/-- Every successful parse relates its total field to a total search over
the anchor-delimited region, and records the anchor-missing and
total-missing observations exactly when those situations occur. -/
theorem c6_scope_ok (texto : String) (h : DadosFatura)
    (hok : parse_dados_fatura texto = .ok h) :
    (texto_apos_ancora texto = none ↔
      "Âncora 'Lançamentos nesta fatura' não encontrada; total buscado no texto inteiro."
        ∈ h.observacoes) ∧
    (∀ g, totalSearch none (regiaoTotal texto).data = some g →
      h.total = parse_decimal_br ⟨g⟩) ∧
    (totalSearch none (regiaoTotal texto).data = none ↔
      h.total = none ∧
      "Total da Fatura (após a âncora) não encontrado no PDF." ∈
        h.observacoes) := by
  by_cases hshort : (texto.isEmpty || decide ((pyStrip texto).length < 30)) = true
  · unfold parse_dados_fatura at hok
    rw [if_pos hshort] at hok
    exact Except.noConfusion hok
  · unfold parse_dados_fatura at hok
    rw [if_neg hshort] at hok
    cases hf : fechSearch none texto.data with
    | none =>
      rw [hf] at hok
      exact Except.noConfusion hok
    | some fs =>
      cases hv : vencSearch none texto.data with
      | none =>
        rw [hf, hv] at hok
        exact Except.noConfusion hok
      | some vs =>
        cases hfin : finalSearch none texto.data with
        | none =>
          rw [hf, hv, hfin] at hok
          exact Except.noConfusion hok
        | some cf =>
          cases hd1 : parseDateStr fs with
          | none =>
            simp only [hf, hv, hfin, hd1] at hok
            exact Except.noConfusion hok
          | some d1 =>
            cases hd2 : parseDateStr vs with
            | none =>
              simp only [hf, hv, hfin, hd1, hd2] at hok
              exact Except.noConfusion hok
            | some d2 =>
              cases hb : extrair_bandeira texto with
              | mk band obsB =>
                have hobs : obsB = [] ∨
                    obsB = ["Bandeira detectada fora do cabeçalho OUROCARD; verifique se está correta."] ∨
                    obsB = ["Bandeira do cartão não detectada no PDF."] := by
                  have h0 := extrair_bandeira_obs texto
                  rw [hb] at h0
                  exact h0
                cases ha : texto_apos_ancora texto with
                | some pos =>
                  have hreg : regiaoTotal texto = pos := by
                    unfold regiaoTotal
                    rw [ha]
                    rfl
                  cases ht : totalSearch none pos.data with
                  | some gt =>
                    cases hp : parse_decimal_br ⟨gt⟩ with
                    | none =>
                      simp only [hf, hv, hfin, hd1, hd2, hb, ha, ht, hp] at hok
                      exact Except.noConfusion hok
                    | some dt =>
                      simp only [hf, hv, hfin, hd1, hd2, hb, ha, ht, hp] at hok
                      injection hok with hok
                      subst hok
                      refine ⟨?_, ?_, ?_⟩
                      · refine iff_of_false ?_ ?_
                        · intro hc
                          exact Option.noConfusion hc
                        · intro hc
                          exact c6_no_anchor_msg d1 d2 obsB hobs hc
                      · intro g hg
                        rw [hreg, ht] at hg
                        injection hg with hg
                        subst hg
                        exact hp.symm
                      · refine iff_of_false ?_ ?_
                        · intro hc
                          rw [hreg, ht] at hc
                          exact Option.noConfusion hc
                        · rintro ⟨hc, _⟩
                          exact Option.noConfusion hc
                  | none =>
                    simp only [hf, hv, hfin, hd1, hd2, hb, ha, ht] at hok
                    injection hok with hok
                    subst hok
                    refine ⟨?_, ?_, ?_⟩
                    · refine iff_of_false ?_ ?_
                      · intro hc
                        exact Option.noConfusion hc
                      · intro hc
                        rcases List.mem_append.mp hc with hc | hc
                        · exact c6_no_anchor_msg d1 d2 obsB hobs hc
                        · exact absurd (List.mem_singleton.mp hc) (by decide)
                    · intro g hg
                      rw [hreg, ht] at hg
                      exact Option.noConfusion hg
                    · refine iff_of_true ?_ ⟨rfl, ?_⟩
                      · rw [hreg]
                        exact ht
                      · exact List.mem_append.mpr
                          (Or.inr (List.mem_singleton.mpr rfl))
                | none =>
                  have hreg : regiaoTotal texto = texto := by
                    unfold regiaoTotal
                    rw [ha]
                    rfl
                  cases ht : totalSearch none texto.data with
                  | some gt =>
                    cases hp : parse_decimal_br ⟨gt⟩ with
                    | none =>
                      simp only [hf, hv, hfin, hd1, hd2, hb, ha, ht, hp] at hok
                      exact Except.noConfusion hok
                    | some dt =>
                      simp only [hf, hv, hfin, hd1, hd2, hb, ha, ht, hp] at hok
                      injection hok with hok
                      subst hok
                      refine ⟨?_, ?_, ?_⟩
                      · refine iff_of_true rfl ?_
                        exact List.mem_append.mpr
                          (Or.inr (List.mem_singleton.mpr rfl))
                      · intro g hg
                        rw [hreg, ht] at hg
                        injection hg with hg
                        subst hg
                        exact hp.symm
                      · refine iff_of_false ?_ ?_
                        · intro hc
                          rw [hreg, ht] at hc
                          exact Option.noConfusion hc
                        · rintro ⟨hc, _⟩
                          exact Option.noConfusion hc
                  | none =>
                    simp only [hf, hv, hfin, hd1, hd2, hb, ha, ht] at hok
                    injection hok with hok
                    subst hok
                    refine ⟨?_, ?_, ?_⟩
                    · refine iff_of_true rfl ?_
                      refine List.mem_append.mpr (Or.inl ?_)
                      exact List.mem_append.mpr
                        (Or.inr (List.mem_singleton.mpr rfl))
                    · intro g hg
                      rw [hreg, ht] at hg
                      exact Option.noConfusion hg
                    · refine iff_of_true ?_ ⟨rfl, ?_⟩
                      · rw [hreg]
                        exact ht
                      · exact List.mem_append.mpr
                          (Or.inr (List.mem_singleton.mpr rfl))

end Financas

namespace Financas

/-- C6: the statement total is searched only in the region after the
anchor line (the whole text when the anchor is absent, in which case an
anchor observation is recorded); when no total pattern matches in that
region the returned header has total = none together with a recorded
observation; and a missing total never makes parsing fail when the
required header fields are present and valid. -/
theorem total_search_scope :
    (∀ texto h, parse_dados_fatura texto = .ok h →
      (texto_apos_ancora texto = none ↔
        "Âncora 'Lançamentos nesta fatura' não encontrada; total buscado no texto inteiro."
          ∈ h.observacoes) ∧
      (∀ g, totalSearch none (regiaoTotal texto).data = some g →
        h.total = parse_decimal_br ⟨g⟩) ∧
      (totalSearch none (regiaoTotal texto).data = none ↔
        h.total = none ∧
        "Total da Fatura (após a âncora) não encontrado no PDF." ∈
          h.observacoes)) ∧
    (∀ texto fs vs cf d1 d2,
      (texto.isEmpty || decide ((pyStrip texto).length < 30)) = false →
      fechSearch none texto.data = some fs →
      vencSearch none texto.data = some vs →
      finalSearch none texto.data = some cf →
      parseDateStr fs = some d1 →
      parseDateStr vs = some d2 →
      totalSearch none (regiaoTotal texto).data = none →
      ∃ h, parse_dados_fatura texto = .ok h ∧ h.total = none) :=
  ⟨c6_scope_ok, fun texto fs vs cf d1 d2 h1 h2 h3 h4 h5 h6 h7 =>
    missing_total_not_fatal texto fs vs cf d1 d2 h1 h2 h3 h4 h5 h6 h7⟩

end Financas

namespace Financas

set_option maxRecDepth 100000 in
set_option maxHeartbeats 4000000 in
/-- Witness: a concrete statement text with valid header fields but no
anchor line and no total; both parts of the scope theorem apply to it. -/
theorem total_search_scope_witness :
    ((texto_apos_ancora "Cartao final 1234 fechada em 05/01/2025 vencimento: 15/01/2025 ok" = none ↔
        "Âncora 'Lançamentos nesta fatura' não encontrada; total buscado no texto inteiro."
          ∈ ["Bandeira do cartão não detectada no PDF.",
             "Âncora 'Lançamentos nesta fatura' não encontrada; total buscado no texto inteiro.",
             "Total da Fatura (após a âncora) não encontrado no PDF."]) ∧
      (∀ g, totalSearch none
          (regiaoTotal "Cartao final 1234 fechada em 05/01/2025 vencimento: 15/01/2025 ok").data = some g →
        (none : Option Dec) = parse_decimal_br ⟨g⟩) ∧
      (totalSearch none
          (regiaoTotal "Cartao final 1234 fechada em 05/01/2025 vencimento: 15/01/2025 ok").data = none ↔
        (none : Option Dec) = none ∧
        "Total da Fatura (após a âncora) não encontrado no PDF." ∈
          ["Bandeira do cartão não detectada no PDF.",
           "Âncora 'Lançamentos nesta fatura' não encontrada; total buscado no texto inteiro.",
           "Total da Fatura (após a âncora) não encontrado no PDF."])) ∧
    (∃ h, parse_dados_fatura
        "Cartao final 1234 fechada em 05/01/2025 vencimento: 15/01/2025 ok" = .ok h ∧
      h.total = none) := by
  constructor
  · exact total_search_scope.1
      "Cartao final 1234 fechada em 05/01/2025 vencimento: 15/01/2025 ok"
      { emissor := "Banco do Brasil"
        cartao_final := "1234"
        bandeira := none
        fechado_em := ⟨2025, 1, 5⟩
        vencimento_em := ⟨2025, 1, 15⟩
        competencia := competencia_from_fechamento ⟨2025, 1, 5⟩
        total := none
        arquivo_hash := sha1 "Cartao final 1234 fechada em 05/01/2025 vencimento: 15/01/2025 ok"
        observacoes := ["Bandeira do cartão não detectada no PDF.",
          "Âncora 'Lançamentos nesta fatura' não encontrada; total buscado no texto inteiro.",
          "Total da Fatura (após a âncora) não encontrado no PDF."] }
      (by rfl)
  · exact total_search_scope.2
      "Cartao final 1234 fechada em 05/01/2025 vencimento: 15/01/2025 ok"
      "05/01/2025" "15/01/2025" "1234" ⟨2025, 1, 5⟩ ⟨2025, 1, 15⟩
      (by rfl) (by rfl) (by rfl) (by rfl) (by rfl) (by rfl) (by rfl)

end Financas

namespace Financas

set_option maxRecDepth 100000 in
set_option maxHeartbeats 4000000 in
/-- Witness: a long text with none of the header fields makes
parse_dados_fatura raise the dados-não-encontrados error, via the second
part of the raises-iff theorem. -/
theorem parse_dados_fatura_raises_iff_witness :
    parse_dados_fatura
        "este documento nao possui nenhum dos campos esperados pelo leitor" =
      .error (.dadosNaoEncontrados (msgDadosNaoEncontrados
        "este documento nao possui nenhum dos campos esperados pelo leitor")) :=
  (parse_dados_fatura_raises_iff
    "este documento nao possui nenhum dos campos esperados pelo leitor").2
    (by decide) (by decide)

end Financas

namespace Financas

theorem log2go_eq (fuel : Nat) : ∀ n : Nat, n ≤ fuel → log2go fuel n = Nat.log2 n := by
  induction fuel with
  | zero =>
    intro n hn
    have h0 : n = 0 := by omega
    subst h0
    show 0 = Nat.log2 0
    unfold Nat.log2
    rw [if_neg (by omega)]
  | succ fuel ih =>
    intro n hn
    show (if n ≥ 2 then log2go fuel (n / 2) + 1 else 0) = Nat.log2 n
    by_cases h2 : n ≥ 2
    · rw [if_pos h2, ih (n / 2) (by omega)]
      conv_rhs => unfold Nat.log2
      rw [if_pos h2]
    · rw [if_neg h2]
      conv_rhs => unfold Nat.log2
      rw [if_neg h2]

theorem log2F_eq (n : Nat) : log2F n = Nat.log2 n :=
  log2go_eq n n (Nat.le_refl n)

/-- The ties-to-even integer rounding is within a half of its argument. -/
theorem roundHERat_abs_le (y : Rat) : |((roundHERat y : Int) : Rat) - y| ≤ 1 / 2 := by
  have hfl : ((⌊y⌋ : Int) : Rat) ≤ y := Int.floor_le y
  have hfu : y < ⌊y⌋ + 1 := Int.lt_floor_add_one y
  simp only [roundHERat]
  by_cases h1 : y - ⌊y⌋ < 1 / 2
  · rw [if_pos h1, abs_le]
    constructor <;> linarith
  · rw [if_neg h1]
    by_cases h2 : y - ⌊y⌋ > 1 / 2
    · rw [if_pos h2, abs_le]
      constructor <;> push_cast <;> linarith
    · rw [if_neg h2]
      by_cases h3 : ⌊y⌋ % 2 = 0
      · rw [if_pos h3, abs_le]
        constructor <;> linarith
      · rw [if_neg h3, abs_le]
        constructor <;> push_cast <;> linarith

/-- A rational within strictly half a unit of an integer rounds to it. -/
theorem roundHERat_eq_of_abs_lt (y : Rat) (n : Int) (h : |y - (n : Rat)| < 1 / 2) :
    roundHERat y = n := by
  have h1 := roundHERat_abs_le y
  have h2 : |((roundHERat y : Int) : Rat) - (n : Rat)| < 1 := by
    calc |((roundHERat y : Int) : Rat) - (n : Rat)| ≤
        |((roundHERat y : Int) : Rat) - y| + |y - (n : Rat)| := abs_sub_le _ _ _
      _ < 1 := by linarith
  rw [show ((roundHERat y : Int) : Rat) - (n : Rat) =
      ((roundHERat y - n : Int) : Rat) by push_cast; ring] at h2
  rw [← Int.cast_abs] at h2
  have h3 : |roundHERat y - n| < 1 := by exact_mod_cast h2
  have h4 := abs_lt.mp h3
  omega

theorem pow2R_eq (e : Int) : pow2R e = (2 : Rat) ^ e := by
  unfold pow2R
  by_cases h : 0 ≤ e
  · rw [if_pos h]
    have h2 : ((e.toNat : Int)) = e := Int.toNat_of_nonneg h
    calc ((2 ^ e.toNat : Nat) : Rat) = (2 : Rat) ^ e.toNat := by push_cast; ring
      _ = (2 : Rat) ^ ((e.toNat : Int)) := (zpow_natCast _ _).symm
      _ = (2 : Rat) ^ e := by rw [h2]
  · rw [if_neg h]
    obtain ⟨k, hk⟩ : ∃ k : Nat, e = -(k : Int) := ⟨(-e).toNat, by omega⟩
    subst hk
    rw [zpow_neg]
    have h3 : (-(-(k : Int))).toNat = k := by omega
    rw [h3, one_div]
    congr 1
    rw [zpow_natCast]
    push_cast
    ring

end Financas

namespace Financas

/-- toDoublePos rounds at a scale 2^(e-52) whose exponent never exceeds
the binary magnitude of the argument. -/
theorem toDoublePos_spec (x : Rat) (hx : 0 < x) :
    ∃ e : Int, (2 : Rat) ^ e ≤ x ∧
      toDoublePos x =
        ((roundHERat (x / (2 : Rat) ^ (e - 52)) : Int) : Rat) * (2 : Rat) ^ (e - 52) := by
  have hnum : 0 < x.num := Rat.num_pos.mpr hx
  have hnAbs : x.num.natAbs ≠ 0 := by
    intro h0
    have := Int.natAbs_eq_zero.mp h0
    omega
  have hdennat : 0 < x.den := x.den_pos
  have hdAbs : x.den ≠ 0 := by omega
  have h1 : 2 ^ Nat.log2 x.num.natAbs ≤ x.num.natAbs := Nat.log2_self_le hnAbs
  have h4 : x.den < 2 ^ (Nat.log2 x.den + 1) := Nat.lt_log2_self
  have hnumcast : ((x.num.natAbs : Nat) : Rat) = (x.num : Rat) := by
    rw [Int.cast_natAbs]
    exact_mod_cast abs_of_pos hnum
  have hq1 : (2 : Rat) ^ ((Nat.log2 x.num.natAbs : Int)) ≤ (x.num : Rat) := by
    rw [zpow_natCast]
    calc (2 : Rat) ^ Nat.log2 x.num.natAbs
        = ((2 ^ Nat.log2 x.num.natAbs : Nat) : Rat) := by push_cast; ring
      _ ≤ ((x.num.natAbs : Nat) : Rat) := by exact_mod_cast h1
      _ = (x.num : Rat) := hnumcast
  have hq4 : (x.den : Rat) < (2 : Rat) ^ ((Nat.log2 x.den : Int) + 1) := by
    rw [show ((Nat.log2 x.den : Int) + 1) = ((Nat.log2 x.den + 1 : Nat) : Int) by push_cast; ring,
      zpow_natCast]
    calc ((x.den : Nat) : Rat) < ((2 ^ (Nat.log2 x.den + 1) : Nat) : Rat) := by exact_mod_cast h4
      _ = (2 : Rat) ^ (Nat.log2 x.den + 1) := by push_cast; ring
  have hdpos : (0 : Rat) < (x.den : Rat) := by exact_mod_cast hdennat
  have hxeq : (x.num : Rat) / (x.den : Rat) = x := Rat.num_div_den x
  have hlow : (2 : Rat) ^ ((Nat.log2 x.num.natAbs : Int) - (Nat.log2 x.den : Int) - 1) ≤ x := by
    conv_rhs => rw [← hxeq]
    rw [le_div_iff₀ hdpos]
    refine le_of_lt ?_
    calc (2 : Rat) ^ ((Nat.log2 x.num.natAbs : Int) - (Nat.log2 x.den : Int) - 1) * (x.den : Rat)
        < (2 : Rat) ^ ((Nat.log2 x.num.natAbs : Int) - (Nat.log2 x.den : Int) - 1) *
          (2 : Rat) ^ ((Nat.log2 x.den : Int) + 1) :=
          mul_lt_mul_of_pos_left hq4 (zpow_pos two_pos _)
      _ = (2 : Rat) ^ ((Nat.log2 x.num.natAbs : Int)) := by
          rw [← zpow_add₀ (two_ne_zero)]
          congr 1
          ring
      _ ≤ (x.num : Rat) := hq1
  simp only [toDoublePos, log2F_eq, pow2R_eq]
  by_cases hlt : x < (2 : Rat) ^ ((Nat.log2 x.num.natAbs : Int) - (Nat.log2 x.den : Int))
  · rw [if_pos hlt]
    exact ⟨(Nat.log2 x.num.natAbs : Int) - (Nat.log2 x.den : Int) - 1, hlow, rfl⟩
  · rw [if_neg hlt]
    exact ⟨(Nat.log2 x.num.natAbs : Int) - (Nat.log2 x.den : Int), not_lt.mp hlt, rfl⟩

/-- On (0, 10^13] the binary64 rounding error is at most 2^(-10). -/
theorem toDoublePos_err (x : Rat) (hx : 0 < x) (hxle : x ≤ 10 ^ 13) :
    |toDoublePos x - x| ≤ 1 / 1024 := by
  obtain ⟨e, he, heq⟩ := toDoublePos_spec x hx
  have he43 : e ≤ 43 := by
    by_contra hcon
    push_neg at hcon
    have h44 : (2 : Rat) ^ (44 : Int) ≤ (2 : Rat) ^ e :=
      zpow_le_zpow_right₀ one_le_two (by omega)
    have h45 : (10 : Rat) ^ 13 < (2 : Rat) ^ (44 : Int) := by
      rw [show (44 : Int) = ((44 : Nat) : Int) by norm_num, zpow_natCast]
      norm_num
    linarith
  have hp : (0 : Rat) < (2 : Rat) ^ (e - 52) := zpow_pos two_pos _
  have hkey : toDoublePos x - x =
      (((roundHERat (x / (2 : Rat) ^ (e - 52)) : Int) : Rat) -
        x / (2 : Rat) ^ (e - 52)) * (2 : Rat) ^ (e - 52) := by
    rw [heq]
    field_simp
  calc |toDoublePos x - x|
      = |((roundHERat (x / (2 : Rat) ^ (e - 52)) : Int) : Rat) -
          x / (2 : Rat) ^ (e - 52)| * (2 : Rat) ^ (e - 52) := by
        rw [hkey, abs_mul, abs_of_pos hp]
    _ ≤ (1 / 2) * (2 : Rat) ^ (e - 52) :=
        mul_le_mul_of_nonneg_right (roundHERat_abs_le _) hp.le
    _ ≤ (1 / 2) * (2 : Rat) ^ ((-9 : Int)) := by
        refine mul_le_mul_of_nonneg_left (zpow_le_zpow_right₀ one_le_two (by omega)) (by norm_num)
    _ = 1 / 1024 := by
        rw [show ((-9 : Int)) = -((9 : Nat) : Int) by norm_num, zpow_neg, zpow_natCast]
        norm_num

end Financas

namespace Financas

/-- For amounts up to 10^15 cents, scaling the float back by 100 and
rounding half-even recovers the cent count exactly, and the float is not
negative. -/
theorem toDouble_cents (cents : Nat) (h1 : 1 ≤ cents) (h2 : cents ≤ 10 ^ 15) :
    roundHERat (toDouble ((cents : Rat) / 100) * 100) = (cents : Int) ∧
      ¬(toDouble ((cents : Rat) / 100) < 0) := by
  have hc0 : (0 : Rat) < (cents : Rat) := by exact_mod_cast h1
  have hx : (0 : Rat) < (cents : Rat) / 100 := by positivity
  have hxle : (cents : Rat) / 100 ≤ 10 ^ 13 := by
    rw [div_le_iff₀ (by norm_num)]
    have hcc : (cents : Rat) ≤ ((10 ^ 15 : Nat) : Rat) := by exact_mod_cast h2
    have : ((10 ^ 15 : Nat) : Rat) = 10 ^ 13 * 100 := by norm_num
    linarith
  have ht : toDouble ((cents : Rat) / 100) = toDoublePos ((cents : Rat) / 100) := by
    unfold toDouble
    rw [if_neg (ne_of_gt hx), if_neg (not_lt.mpr hx.le)]
  have herr := toDoublePos_err _ hx hxle
  have habs := abs_le.mp herr
  constructor
  · apply roundHERat_eq_of_abs_lt
    rw [ht]
    have hsplit : toDoublePos ((cents : Rat) / 100) * 100 - ((cents : Int) : Rat) =
        (toDoublePos ((cents : Rat) / 100) - (cents : Rat) / 100) * 100 := by
      push_cast
      ring
    rw [hsplit, abs_mul]
    have h100 : |(100 : Rat)| = 100 := by norm_num
    rw [h100]
    calc |toDoublePos ((cents : Rat) / 100) - (cents : Rat) / 100| * 100
        ≤ (1 / 1024) * 100 := mul_le_mul_of_nonneg_right herr (by norm_num)
      _ < 1 / 2 := by norm_num
  · rw [ht]
    intro hneg
    have hg : (1 : Rat) / 100 ≤ (cents : Rat) / 100 := by
      have : (1 : Rat) ≤ (cents : Rat) := by exact_mod_cast h1
      linarith
    linarith [habs.1]

end Financas

namespace Financas

/-- Formatting a two-decimal Decimal of at most 10^15 cents reproduces the
canonical Brazilian string. -/
theorem moeda_brCanonical (cents : Nat) (h2 : cents ≤ 10 ^ 15) :
    moeda_brasileira ⟨(cents : Int), 2⟩ = brCanonical cents := by
  rcases Nat.eq_zero_or_pos cents with h0 | h1
  · subst h0
    with_unfolding_all rfl
  · have hd : decToRat ⟨(cents : Int), 2⟩ = (cents : Rat) / 100 := by
      unfold decToRat decPow10
      norm_num
    obtain ⟨hround, hpos⟩ := toDouble_cents cents h1 h2
    unfold moeda_brasileira brCanonical
    simp only [formatCommaF2, hd, hround, if_neg hpos, Int.natAbs_ofNat]
    rfl

end Financas

namespace Financas

theorem digitChar_is_digit : ∀ k < 10, pyIsDigit (Nat.digitChar k) = true := by decide

theorem digitChar_val : ∀ k < 10, (Nat.digitChar k).val.toNat - 48 = k := by decide

theorem natDigs_ne_nil (n : Nat) : natDigs n ≠ [] := by
  unfold natDigs
  split
  · simp
  · simp

theorem natDigs_digits (n : Nat) : ∀ c ∈ natDigs n, pyIsDigit c = true := by
  induction n using Nat.strong_induction_on with
  | _ n ih =>
    unfold natDigs
    split
    · next h =>
      intro c hc
      rw [List.mem_singleton] at hc
      subst hc
      exact digitChar_is_digit n h
    · next h =>
      intro c hc
      rcases List.mem_append.mp hc with hc | hc
      · exact ih (n / 10) (by omega) c hc
      · rw [List.mem_singleton] at hc
        subst hc
        exact digitChar_is_digit (n % 10) (by omega)

theorem natDigs_val (n : Nat) : ∀ a : Nat,
    (natDigs n).foldl (fun a c => 10 * a + (c.val.toNat - 48)) a =
      a * 10 ^ (natDigs n).length + n := by
  induction n using Nat.strong_induction_on with
  | _ n ih =>
    intro a
    by_cases h : n < 10
    · unfold natDigs
      rw [dif_pos h]
      simp only [List.foldl_cons, List.foldl_nil, List.length_singleton]
      rw [digitChar_val n h]
      ring
    · unfold natDigs
      rw [dif_neg h]
      rw [List.foldl_append, List.length_append]
      rw [ih (n / 10) (by omega) a]
      simp only [List.foldl_cons, List.foldl_nil, List.length_singleton]
      rw [digitChar_val (n % 10) (by omega)]
      have hmod : 10 * (n / 10) + n % 10 = n := Nat.div_add_mod n 10
      have hpow : 10 ^ ((natDigs (n / 10)).length + 1) =
          10 ^ (natDigs (n / 10)).length * 10 := pow_succ 10 _
      rw [hpow]
      ring_nf
      omega

theorem toDigitsCore_eq : ∀ (fuel n : Nat) (acc : List Char), n < fuel →
    Nat.toDigitsCore 10 fuel n acc = natDigs n ++ acc := by
  intro fuel
  induction fuel with
  | zero =>
    intro n acc h
    omega
  | succ fuel ih =>
    intro n acc h
    show (if n / 10 = 0 then Nat.digitChar (n % 10) :: acc
      else Nat.toDigitsCore 10 fuel (n / 10) (Nat.digitChar (n % 10) :: acc)) =
        natDigs n ++ acc
    by_cases h0 : n / 10 = 0
    · have hn : n < 10 := by omega
      rw [if_pos h0]
      unfold natDigs
      rw [dif_pos hn]
      have : n % 10 = n := Nat.mod_eq_of_lt hn
      rw [this]
      rfl
    · rw [if_neg h0, ih (n / 10) _ (by omega)]
      conv_rhs => unfold natDigs
      rw [dif_neg (by omega : ¬n < 10)]
      simp

theorem toString_eq_natDigs (n : Nat) : (toString n).data = natDigs n := by
  show (Nat.toDigits 10 n).asString.data = natDigs n
  unfold Nat.toDigits
  rw [toDigitsCore_eq (n + 1) n [] (by omega)]
  simp [List.asString]

end Financas

namespace Financas

theorem dropWhile_eq_self_of (p : Char → Bool) (l : List Char)
    (h : ∀ c ∈ l, p c = false) : l.dropWhile p = l := by
  cases l with
  | nil => rfl
  | cons c t =>
    rw [List.dropWhile_cons, h c (List.mem_cons_self c t)]
    simp

theorem takeWhile_eq_self_of (p : Char → Bool) (l : List Char)
    (h : ∀ c ∈ l, p c = true) : l.takeWhile p = l := by
  induction l with
  | nil => rfl
  | cons c t ih =>
    rw [List.takeWhile_cons, h c (List.mem_cons_self c t)]
    simp only [if_true]
    rw [ih fun x hx => h x (List.mem_cons_of_mem c hx)]

theorem pyStripChars_eq_self (l : List Char) (h : ∀ c ∈ l, pyIsSpace c = false) :
    pyStripChars l = l := by
  unfold pyStripChars
  rw [dropWhile_eq_self_of _ _ h,
    dropWhile_eq_self_of _ _ fun c hc => h c (List.mem_reverse.mp hc),
    List.reverse_reverse]

theorem digit_not_space (c : Char) (h : pyIsDigit c = true) : pyIsSpace c = false := by
  simp only [pyIsDigit, Bool.and_eq_true, decide_eq_true_eq] at h
  simp only [pyIsSpace]
  have h1 : 48 ≤ c.val.toNat := h.1
  have h2 : c.val.toNat ≤ 57 := h.2
  simp only [Bool.or_eq_false_iff, decide_eq_false_iff_not]
  refine ⟨⟨⟨⟨⟨⟨?_, ?_⟩, ?_⟩, ?_⟩, ?_⟩, ?_⟩, ?_⟩ <;>
    (intro he; subst he; simp_all)

theorem digit_ne_dot (c : Char) (h : pyIsDigit c = true) : c ≠ '.' := by
  intro he
  subst he
  exact absurd h (by decide)

theorem digit_ne_comma (c : Char) (h : pyIsDigit c = true) : c ≠ ',' := by
  intro he
  subst he
  exact absurd h (by decide)

theorem digit_swap (c : Char) (h : pyIsDigit c = true) :
    (if c = ',' then '.' else if c = '.' then ',' else c) = c := by
  rw [if_neg (digit_ne_comma c h), if_neg (digit_ne_dot c h)]

theorem digit_comma2dot (c : Char) (h : pyIsDigit c = true) :
    (if c = ',' then '.' else c) = c := by
  rw [if_neg (digit_ne_comma c h)]

end Financas

namespace Financas

theorem group_mem : ∀ (k : Nat) (l : List Char) (c : Char),
    c ∈ groupThousandsRev k l → c ∈ l ∨ c = ',' := by
  intro k l
  induction l generalizing k with
  | nil =>
    intro c hc
    exact absurd hc (List.not_mem_nil c)
  | cons d rest ih =>
    intro c hc
    show c ∈ d :: rest ∨ c = ','
    by_cases hk : k = 3
    · rw [show groupThousandsRev k (d :: rest) =
          d :: ',' :: groupThousandsRev 1 rest by rw [groupThousandsRev, if_pos hk]] at hc
      rcases List.mem_cons.mp hc with hc | hc
      · exact Or.inl (hc ▸ List.mem_cons_self d rest)
      · rcases List.mem_cons.mp hc with hc | hc
        · exact Or.inr hc
        · rcases ih 1 c hc with h | h
          · exact Or.inl (List.mem_cons_of_mem d h)
          · exact Or.inr h
    · rw [show groupThousandsRev k (d :: rest) =
          d :: groupThousandsRev (k + 1) rest by rw [groupThousandsRev, if_neg hk]] at hc
      rcases List.mem_cons.mp hc with hc | hc
      · exact Or.inl (hc ▸ List.mem_cons_self d rest)
      · rcases ih (k + 1) c hc with h | h
        · exact Or.inl (List.mem_cons_of_mem d h)
        · exact Or.inr h

theorem digits_map_swap (l : List Char) (h : ∀ c ∈ l, pyIsDigit c = true) :
    l.map (fun c => if c = ',' then '.' else if c = '.' then ',' else c) = l := by
  induction l with
  | nil => rfl
  | cons c rest ih =>
    rw [List.map_cons, digit_swap c (h c (List.mem_cons_self c rest)),
      ih fun x hx => h x (List.mem_cons_of_mem c hx)]

theorem digits_filter_dot (l : List Char) (h : ∀ c ∈ l, pyIsDigit c = true) :
    l.filter (fun c => decide (c ≠ '.')) = l := by
  induction l with
  | nil => rfl
  | cons c rest ih =>
    rw [List.filter_cons,
      show (decide (c ≠ '.')) = true from
        decide_eq_true (digit_ne_dot c (h c (List.mem_cons_self c rest)))]
    simp only [if_true]
    rw [ih fun x hx => h x (List.mem_cons_of_mem c hx)]

theorem digits_map_comma (l : List Char) (h : ∀ c ∈ l, pyIsDigit c = true) :
    l.map (fun c => if c = ',' then '.' else c) = l := by
  induction l with
  | nil => rfl
  | cons c rest ih =>
    rw [List.map_cons, digit_comma2dot c (h c (List.mem_cons_self c rest)),
      ih fun x hx => h x (List.mem_cons_of_mem c hx)]

theorem group_swap_filter (l : List Char) : ∀ k : Nat, (∀ c ∈ l, pyIsDigit c = true) →
    ((groupThousandsRev k l).map
        (fun c => if c = ',' then '.' else if c = '.' then ',' else c)).filter
      (fun c => decide (c ≠ '.')) = l := by
  induction l with
  | nil =>
    intro k h
    rfl
  | cons c rest ih =>
    intro k h
    have hc : pyIsDigit c = true := h c (List.mem_cons_self c rest)
    have hrest : ∀ x ∈ rest, pyIsDigit x = true :=
      fun x hx => h x (List.mem_cons_of_mem c hx)
    have hcsing : ∀ x ∈ ([c] : List Char), pyIsDigit x = true := by
      intro x hx
      rw [List.mem_singleton] at hx
      subst hx
      exact hc
    by_cases hk : k = 3
    · rw [show groupThousandsRev k (c :: rest) =
          c :: ',' :: groupThousandsRev 1 rest by rw [groupThousandsRev, if_pos hk]]
      rw [show (c :: ',' :: groupThousandsRev 1 rest) =
          [c] ++ [','] ++ groupThousandsRev 1 rest from rfl]
      rw [List.map_append, List.map_append, List.filter_append, List.filter_append]
      rw [show ((([','] : List Char).map
          (fun c => if c = ',' then '.' else if c = '.' then ',' else c)).filter
          (fun c => decide (c ≠ '.'))) = [] from rfl]
      rw [digits_map_swap [c] hcsing, digits_filter_dot [c] hcsing, ih 1 hrest]
      rfl
    · rw [show groupThousandsRev k (c :: rest) =
          c :: groupThousandsRev (k + 1) rest by rw [groupThousandsRev, if_neg hk]]
      rw [show (c :: groupThousandsRev (k + 1) rest) =
          [c] ++ groupThousandsRev (k + 1) rest from rfl]
      rw [List.map_append, List.filter_append]
      rw [digits_map_swap [c] hcsing, digits_filter_dot [c] hcsing, ih (k + 1) hrest]
      rfl

theorem takeWhile_digits_dot (I F : List Char) (h : ∀ c ∈ I, pyIsDigit c = true) :
    (I ++ '.' :: F).takeWhile pyIsDigit = I := by
  induction I with
  | nil =>
    rw [List.nil_append, List.takeWhile_cons]
    rw [show pyIsDigit '.' = false from by decide]
    rfl
  | cons c rest ih =>
    rw [List.cons_append, List.takeWhile_cons, h c (List.mem_cons_self c rest)]
    simp only [if_true]
    rw [ih fun x hx => h x (List.mem_cons_of_mem c hx)]

theorem foldl_zeros (m : Nat) : ∀ a : Nat,
    (List.replicate m '0').foldl (fun a c => 10 * a + (c.val.toNat - 48)) a =
      a * 10 ^ m := by
  induction m with
  | zero =>
    intro a
    simp
  | succ m ih =>
    intro a
    rw [List.replicate_succ, List.foldl_cons]
    rw [show ('0'.val.toNat - 48) = 0 from rfl]
    rw [ih (10 * a + 0)]
    ring

theorem natDigs_len_le (r : Nat) (h : r < 100) : (natDigs r).length ≤ 2 := by
  by_cases h10 : r < 10
  · unfold natDigs
    rw [dif_pos h10]
    simp
  · unfold natDigs
    rw [dif_neg h10]
    rw [List.length_append]
    unfold natDigs
    rw [dif_pos (by omega : r / 10 < 10)]
    simp

end Financas

namespace Financas

/-- Decimal on a digits.digits string. -/
theorem pyDecimalOfChars_int_frac (I F : List Char)
    (hI : ∀ c ∈ I, pyIsDigit c = true) (hF : ∀ c ∈ F, pyIsDigit c = true)
    (hne : I ≠ []) :
    pyDecimalOfChars (I ++ '.' :: F) =
      some ⟨(((I ++ F).foldl (fun a c => 10 * a + (c.val.toNat - 48)) 0 : Nat) : Int),
        F.length⟩ := by
  obtain ⟨c, I', rfl⟩ := List.exists_cons_of_ne_nil hne
  have hc : pyIsDigit c = true := hI c (List.mem_cons_self c I')
  have hhead : (c :: I' ++ '.' :: F).head? = some c := rfl
  have hminus : ¬((c :: I' ++ '.' :: F).head? = some '-') := by
    rw [hhead]
    intro hcon
    injection hcon with hcon
    subst hcon
    exact absurd hc (by decide)
  have hplus : ¬((c :: I' ++ '.' :: F).head? = some '+' ∨
      (c :: I' ++ '.' :: F).head? = some '-') := by
    rw [hhead]
    rintro (hcon | hcon) <;>
      (injection hcon with hcon; subst hcon; exact absurd hc (by decide))
  simp only [pyDecimalOfChars]
  rw [if_neg hminus, if_neg hplus]
  rw [takeWhile_digits_dot (c :: I') F hI]
  rw [List.drop_left]
  simp only [takeWhile_eq_self_of pyIsDigit F hF, List.drop_length, one_mul]
  rw [if_neg (by simp)]
  rw [if_neg (by simp)]

end Financas

namespace Financas

theorem repr_eq_natDigs (n : Nat) : (Nat.repr n).data = natDigs n :=
  toString_eq_natDigs n

theorem brCanonical_data (cents : Nat) : (brCanonical cents).data =
    ((groupThousandsRev 1 (natDigs (cents / 100)).reverse).reverse ++ '.' ::
      (List.replicate (2 - (natDigs (cents % 100)).length) '0' ++
        natDigs (cents % 100))).map
      (fun c => if c = ',' then '.' else if c = '.' then ',' else c) := by
  simp only [brCanonical, swapSeps, groupThousands, padNum, String.data_append,
    String.length, toString_eq_natDigs, repr_eq_natDigs, List.cons_append,
    List.append_assoc, List.nil_append]

end Financas

namespace Financas

theorem parse_brCanonical (cents : Nat) :
    parse_decimal_br (brCanonical cents) = some ⟨(cents : Int), 2⟩ := by
  have hq : ∀ c ∈ natDigs (cents / 100), pyIsDigit c = true := natDigs_digits _
  have hr : ∀ c ∈ natDigs (cents % 100), pyIsDigit c = true := natDigs_digits _
  have hz : ∀ c ∈ List.replicate (2 - (natDigs (cents % 100)).length) '0',
      pyIsDigit c = true := by
    intro c hcm
    rw [List.eq_of_mem_replicate hcm]
    decide
  have hzr : ∀ c ∈ List.replicate (2 - (natDigs (cents % 100)).length) '0' ++
      natDigs (cents % 100), pyIsDigit c = true := by
    intro c hcm
    rcases List.mem_append.mp hcm with hcm | hcm
    · exact hz c hcm
    · exact hr c hcm
  have hqrev : ∀ c ∈ (natDigs (cents / 100)).reverse, pyIsDigit c = true :=
    fun c hcm => hq c (List.mem_reverse.mp hcm)
  unfold parse_decimal_br
  rw [brCanonical_data]
  rw [pyStripChars_eq_self]
  · rw [show ((groupThousandsRev 1 (natDigs (cents / 100)).reverse).reverse ++ '.' ::
        (List.replicate (2 - (natDigs (cents % 100)).length) '0' ++
          natDigs (cents % 100))) =
      (groupThousandsRev 1 (natDigs (cents / 100)).reverse).reverse ++ (['.'] ++
        (List.replicate (2 - (natDigs (cents % 100)).length) '0' ++
          natDigs (cents % 100))) from rfl]
    rw [List.map_append, List.map_append, List.filter_append, List.filter_append]
    rw [List.map_reverse, List.filter_reverse, group_swap_filter _ 1 hqrev,
      List.reverse_reverse]
    rw [show ((['.'] : List Char).map
        (fun c => if c = ',' then '.' else if c = '.' then ',' else c)).filter
        (fun c => decide (c ≠ '.')) = [','] from rfl]
    rw [digits_map_swap _ hzr, digits_filter_dot _ hzr]
    rw [List.map_append, List.map_append]
    rw [digits_map_comma _ hq, digits_map_comma _ hzr]
    rw [show (([','] : List Char).map (fun c => if c = ',' then '.' else c)) =
      ['.'] from rfl]
    rw [show (['.'] ++ (List.replicate (2 - (natDigs (cents % 100)).length) '0' ++
        natDigs (cents % 100))) = '.' :: (List.replicate
          (2 - (natDigs (cents % 100)).length) '0' ++ natDigs (cents % 100)) from rfl]
    rw [pyDecimalOfChars_int_frac _ _ hq hzr (natDigs_ne_nil _)]
    have hl2 : (natDigs (cents % 100)).length ≤ 2 :=
      natDigs_len_le (cents % 100) (by omega)
    have hlen : (List.replicate (2 - (natDigs (cents % 100)).length) '0' ++
        natDigs (cents % 100)).length = 2 := by
      rw [List.length_append, List.length_replicate]
      omega
    have hfold : (natDigs (cents / 100) ++
        (List.replicate (2 - (natDigs (cents % 100)).length) '0' ++
          natDigs (cents % 100))).foldl (fun a c => 10 * a + (c.val.toNat - 48)) 0 =
        cents := by
      rw [List.foldl_append, List.foldl_append]
      rw [natDigs_val (cents / 100) 0, foldl_zeros _ _, natDigs_val (cents % 100) _]
      rw [zero_mul, zero_add]
      rw [mul_assoc, ← pow_add]
      rw [show (2 - (natDigs (cents % 100)).length + (natDigs (cents % 100)).length)
        = 2 from by omega]
      norm_num
      omega
    rw [hfold, hlen]
  · intro c hcm
    obtain ⟨d, hd, rfl⟩ := List.mem_map.mp hcm
    rcases List.mem_append.mp hd with hd | hd
    · rcases group_mem 1 _ d (List.mem_reverse.mp hd) with hd2 | hd2
      · have hdig : pyIsDigit d = true := hqrev d hd2
        rw [digit_swap d hdig]
        exact digit_not_space d hdig
      · subst hd2
        decide
    · rcases List.mem_cons.mp hd with hd2 | hd2
      · subst hd2
        decide
      · have hdig : pyIsDigit d = true := hzr d hd2
        rw [digit_swap d hdig]
        exact digit_not_space d hdig

end Financas

namespace Financas

set_option maxRecDepth 1000000 in
set_option maxHeartbeats 4000000 in
/-- C9 (amended): parsing the Brazilian string "1.234,56" yields the exact
decimal 1234.56 and formatting that value reproduces "1.234,56"; more
generally, for every amount of at most 10^15 cents the canonical
two-decimal rendering parses back exactly and the parsed value formats
back to the same string.  (Beyond binary64 precision the formatting half
fails; see the counterexample.) -/
theorem amount_roundtrip_bounded :
    (parse_decimal_br "1.234,56" = some ⟨123456, 2⟩ ∧
      moeda_brasileira ⟨123456, 2⟩ = "1.234,56") ∧
    ∀ cents : Nat, cents ≤ 10 ^ 15 →
      parse_decimal_br (brCanonical cents) = some ⟨(cents : Int), 2⟩ ∧
        moeda_brasileira ⟨(cents : Int), 2⟩ = brCanonical cents :=
  ⟨⟨by rfl, by with_unfolding_all rfl⟩,
    fun cents h2 => ⟨parse_brCanonical cents, moeda_brCanonical cents h2⟩⟩

set_option maxRecDepth 1000000 in
set_option maxHeartbeats 4000000 in
/-- C9 counterexample: the parser produces the exact decimal
12345678901234567.89 from its canonical string, but moeda_brasileira
formats that value as "12.345.678.901.234.568,00" (float() loses the low
digits), so the format half of the round-trip fails on a parser-produced
value. -/
theorem moeda_roundtrip_cex :
    parse_decimal_br "12.345.678.901.234.567,89" =
      some ⟨1234567890123456789, 2⟩ ∧
    moeda_brasileira ⟨1234567890123456789, 2⟩ ≠ "12.345.678.901.234.567,89" := by
  constructor
  · rfl
  · intro h
    have h1 : moeda_brasileira ⟨1234567890123456789, 2⟩ =
        "12.345.678.901.234.568,00" := by with_unfolding_all rfl
    rw [h1] at h
    exact absurd h (by decide)

set_option maxRecDepth 1000000 in
/-- Witness: the bounded round-trip applied at 1234567890123,45. -/
theorem amount_roundtrip_bounded_witness :
    parse_decimal_br (brCanonical 123456789012345) =
      some ⟨123456789012345, 2⟩ ∧
    moeda_brasileira ⟨123456789012345, 2⟩ = brCanonical 123456789012345 :=
  amount_roundtrip_bounded.2 123456789012345 (by decide)

end Financas
